import Mathlib

set_option maxHeartbeats 1000000

/-- Geometry rectangle mirroring wlr_box / wf::geometry_t (x, y, width, height). -/
structure geometry_t where
  x : Int
  y : Int
  width : Int
  height : Int
deriving DecidableEq

/-- Decoration frame margins (left, right, top, bottom) as consumed from
view_impl->frame->get_margins(). -/
structure margins_t where
  left : Int
  right : Int
  top : Int
  bottom : Int
deriving DecidableEq

/-- Modelled from the spec: wf::gravity_t is not under src; the glossary defines
gravity as "the anchor corner/edge used to keep a resized window visually
stationary from the user's perspective". -/
inductive gravity_t where
  | top_left
  | top_right
  | bottom_left
  | bottom_right
  | center
deriving DecidableEq

/-- Modelled from the spec: wf::shrink_by_margins is not under src; the resize
request must "compute a shrunk size accounting for any decoration margin"
(spec section 4.3), so the width loses left+right and the height loses top+bottom. -/
def shrink_by_margins (g : geometry_t) (m : margins_t) : geometry_t :=
  { x := g.x + m.left, y := g.y + m.top,
    width := g.width - m.left - m.right, height := g.height - m.top - m.bottom }

/-- Modelled from the spec: wf::expand_with_margins is not under src; it is the
inverse margin adjustment used to "recompute the final on-screen box (geometry
expanded by any decoration margin)" (spec section 4.3). -/
def expand_with_margins (g : geometry_t) (m : margins_t) : geometry_t :=
  { x := g.x - m.left, y := g.y - m.top,
    width := g.width + m.left + m.right, height := g.height + m.top + m.bottom }

/-- Modelled from the spec: wf::align_with_gravity is not under src; it keeps the
gravity anchor corner of the desired geometry fixed while adopting the actually
realized box size (spec section 4.3 and glossary). -/
def align_with_gravity (desired actual : geometry_t) (g : gravity_t) : geometry_t :=
  match g with
  | gravity_t.top_left =>
    { x := desired.x, y := desired.y, width := actual.width, height := actual.height }
  | gravity_t.top_right =>
    { x := desired.x + desired.width - actual.width, y := desired.y,
      width := actual.width, height := actual.height }
  | gravity_t.bottom_left =>
    { x := desired.x, y := desired.y + desired.height - actual.height,
      width := actual.width, height := actual.height }
  | gravity_t.bottom_right =>
    { x := desired.x + desired.width - actual.width,
      y := desired.y + desired.height - actual.height,
      width := actual.width, height := actual.height }
  | gravity_t.center =>
    { x := desired.x + (desired.width - actual.width) / 2,
      y := desired.y + (desired.height - actual.height) / 2,
      width := actual.width, height := actual.height }

/-- The value std::numeric_limits of uint32_t max used by check_ready. -/
def UINT32_MAX : Nat := 4294967295

/-- All four tiled edges set (wf::TILED_EDGES_ALL), the bitmask 1|2|4|8. -/
def TILED_EDGES_ALL : Nat := 15

/-- The pure serial comparison inside xdg_instruction_t::check_ready
(xdg-toplevel.hpp lines 61-78): case 1 no wraparound, case 2 wraparound past
UINT32_MAX, then the result is forced false when current is 0 (no ACK yet).
Arguments are the uint32_t values as naturals below 2^32; both subtractions are
guarded so natural subtraction agrees with the uint32_t subtraction. -/
def check_ready_matcher (current target : Nat) : Bool :=
  let case1 : Bool := decide (target ≤ current) && decide (current - target < UINT32_MAX / 2)
  let case2 : Bool := decide (current < target) && decide (UINT32_MAX / 2 < target - current)
  (case1 || case2) && decide (0 < current)

/-- Observable external actions of the instruction code: protocol messages sent,
transaction signals emitted, logical lock invocations, damage and map/unmap side
effects. Listed in the order the code performs them. -/
inductive ev_t where
  | set_maximized (b : Bool)
  | set_tiled (edges : Nat) (serial : Nat)
  | set_size (w h : Int) (serial : Nat)
  | frame (s : Nat)
  | final_size (w h : Int)
  | ready
  | cancel
  | damage
  | soft_lock (s : Nat)
  | soft_unlock (s : Nat)
  | map_view
  | unmap_view
  | update_tiled (old : Nat)
deriving DecidableEq

/-- Discriminator for final-size notifications in a trace. -/
def ev_t.isFinalSize : ev_t → Bool
  | ev_t.final_size _ _ => true
  | _ => false

/-- The wlr_xdg_toplevel protocol object reachable through view->xdg_toplevel:
its base xdg_surface carries the configure_serial last acknowledged by the
client, the serial the next scheduled configure will get, the server_pending
tiled value, the surface geometry reported by wlr_xdg_surface_get_geometry and
the identity of the main wlr_surface. -/
structure toplevel_t where
  configure_serial : Nat
  next_serial : Nat
  server_pending_tiled : Nat
  surface_geometry : geometry_t
  surface : Nat
deriving DecidableEq

/-- The pending/current state pair members used by the instructions
(view_impl->pending and view_impl->state). -/
structure view_state_t where
  mapped : Bool
  tiled_edges : Nat
  geometry : geometry_t
  gravity : gravity_t
deriving DecidableEq

/-- The wayfire_xdg_view as consumed by the instructions: nullable protocol
object, pending and current state, optional decoration frame margins, the
current surface tree enumerated by wf::for_each_wlr_surface (surfaces are
identified by naturals; the same identity is used for the surface_base_t and
its wlr_surface), the nullable main wlr_surface, the size reported by
get_size(), the output geometry member and the reference count. -/
structure view_t where
  xdg_toplevel : Option toplevel_t
  pending : view_state_t
  state : view_state_t
  frame : Option margins_t
  surface_tree : List Nat
  wlr_surface : Option Nat
  size_w : Int
  size_h : Int
  geometry : geometry_t
  refcount : Nat
deriving DecidableEq

/-- One instruction together with its environment: the view, the instruction
members (held_locks, held_soft_locks, the armed on_commit serial, the KILL_TX
connection), the external per-surface logical lock counters (surface_base_t
lock/unlock), the external per-surface wlroots pending-lock counters
(wlr_surface_lock_pending / wlr_surface_unlock_cached), the next fresh wlroots
lock token, and the trace of observable events. -/
structure world_t where
  view : view_t
  held_locks : List (Nat × Nat)
  held_soft_locks : Nat → Bool
  on_commit : Option Nat
  on_kill_connected : Bool
  softCount : Nat → Nat
  hardCount : Nat → Nat
  nextToken : Nat
  events : List ev_t

/-- Number of entries of an association list holding a given key. -/
def keyCount : List (Nat × Nat) → Nat → Nat
  | [], _ => 0
  | (k, _) :: rest, s => (if k = s then 1 else 0) + keyCount rest s

/-- Whether an association list holds an entry with the given key. -/
def hasKey : List (Nat × Nat) → Nat → Bool
  | [], _ => false
  | (k, _) :: rest, s => decide (k = s) || hasKey rest s

/-- Insert-or-replace on an association list (std::map operator square-bracket
assignment semantics). -/
def mapSet (m : List (Nat × Nat)) (k : Nat) (v : Nat) : List (Nat × Nat) :=
  if hasKey m k then m.map (fun p => if p.1 = k then (k, v) else p) else m ++ [(k, v)]

/-- Number of occurrences of a surface in a surface list. -/
def occCount : List Nat → Nat → Nat
  | [], _ => 0
  | a :: rest, s => (if a = s then 1 else 0) + occCount rest s

/-- Base-class construction (xdg_instruction_t::xdg_instruction_t, lines
159-164): take a reference on the view and connect the KILL_TX cancellation
hook; the instruction's lock records start empty and no acknowledgment wait is
armed. -/
def instr_ctor (w : world_t) : world_t :=
  { w with
    view := { w.view with refcount := w.view.refcount + 1 },
    held_locks := [],
    held_soft_locks := fun _ => false,
    on_commit := none,
    on_kill_connected := true }

/-- One step of xdg_instruction_t::lock_tree (lines 118-125): for each surface
base of the tree, set its held_soft_locks flag and invoke base->lock()
unconditionally. -/
def lock_list : List Nat → world_t → world_t
  | [], w => w
  | s :: rest, w =>
    lock_list rest
      { w with
        held_soft_locks := fun x => if x = s then true else w.held_soft_locks x,
        softCount := fun x => if x = s then w.softCount x + 1 else w.softCount x,
        events := w.events ++ [ev_t.soft_lock s] }

/-- Translation of xdg_instruction_t::lock_tree over the current surface tree. -/
def lock_tree (w : world_t) : world_t := lock_list w.view.surface_tree w

/-- One step of xdg_instruction_t::unlock_tree (lines 127-137): for each surface
base of the tree whose held_soft_locks flag is set, clear the flag and invoke
base->unlock(). -/
def unlock_list : List Nat → world_t → world_t
  | [], w => w
  | s :: rest, w =>
    if w.held_soft_locks s then
      unlock_list rest
        { w with
          held_soft_locks := fun x => if x = s then false else w.held_soft_locks x,
          softCount := fun x => if x = s then w.softCount x - 1 else w.softCount x,
          events := w.events ++ [ev_t.soft_unlock s] }
    else
      unlock_list rest w

/-- Translation of xdg_instruction_t::unlock_tree over the current surface tree. -/
def unlock_tree (w : world_t) : world_t := unlock_list w.view.surface_tree w

/-- One step of xdg_instruction_t::lock_tree_wlr (lines 139-146): for each
surface of the tree, wlr_surface_lock_pending returns a fresh token, the
external pending-lock count rises and held_locks records surface to token. -/
def lock_wlr_list : List Nat → world_t → world_t
  | [], w => w
  | s :: rest, w =>
    lock_wlr_list rest
      { w with
        held_locks := mapSet w.held_locks s w.nextToken,
        hardCount := fun x => if x = s then w.hardCount x + 1 else w.hardCount x,
        nextToken := w.nextToken + 1 }

/-- Translation of xdg_instruction_t::lock_tree_wlr over the current surface
tree. -/
def lock_tree_wlr (w : world_t) : world_t := lock_wlr_list w.view.surface_tree w

/-- One step of xdg_instruction_t::unlock_tree_wlr (lines 148-156): call
wlr_surface_unlock_cached for every recorded entry. -/
def unlock_wlr_list : List (Nat × Nat) → world_t → world_t
  | [], w => w
  | (s, _) :: rest, w =>
    unlock_wlr_list rest
      { w with hardCount := fun x => if x = s then w.hardCount x - 1 else w.hardCount x }

/-- Translation of xdg_instruction_t::unlock_tree_wlr: release every recorded
hard lock, then clear the record. -/
def unlock_tree_wlr (w : world_t) : world_t :=
  { unlock_wlr_list w.held_locks w with held_locks := [] }

/-- The box computed in emit_final_size_and_ready and in
xdg_view_geometry_t::apply: the xdg surface geometry, expanded by the
decoration margins when a frame exists (lines 103-109 and 293-299). -/
def finalBox (tl : toplevel_t) (frame : Option margins_t) : geometry_t :=
  match frame with
  | some m => expand_with_margins tl.surface_geometry m
  | none => tl.surface_geometry

/-- Translation of xdg_instruction_t::emit_final_size_and_ready (lines
101-116): publish the final-size signal, then emit ready. Line 104 reads
view->xdg_toplevel->base, so the call dereferences a null pointer (modelled as
none) when the protocol object has vanished. -/
def emit_final_size_and_ready (w : world_t) : Option world_t :=
  match w.view.xdg_toplevel with
  | none => none
  | some tl =>
    some { w with
      events := w.events ++
        [ev_t.final_size (finalBox tl w.view.frame).width (finalBox tl w.view.frame).height,
         ev_t.ready] }

/-- Translation of xdg_instruction_t::check_ready (lines 59-99): read the
current configure serial through view->xdg_toplevel->base (a null dereference,
modelled none, when the protocol object vanished), evaluate the serial
matcher; on a match disconnect on_commit, take the hard locks over the tree and
run the shared finalize epilogue; on a miss send an extra frame event when a
wlr_surface exists. -/
def check_ready (target : Nat) (w : world_t) : Option (Bool × world_t) :=
  match w.view.xdg_toplevel with
  | none => none
  | some tl =>
    if check_ready_matcher tl.configure_serial target then
      (emit_final_size_and_ready (lock_tree_wlr { w with on_commit := none })).map
        (fun w2 => (true, w2))
    else
      match w.view.wlr_surface with
      | some s => some (false, { w with events := w.events ++ [ev_t.frame s] })
      | none => some (false, w)

/-- The KILL_TX hook of xdg_instruction_t (lines 30-34): disconnect the
acknowledgment wait and emit the cancel signal. No lock is touched here. -/
def on_kill_fire (w : world_t) : world_t :=
  { w with on_commit := none, events := w.events ++ [ev_t.cancel] }

/-- Translation of the xdg_instruction_t destructor (lines 41-45) together with
the implicit member teardown: unlock_tree_wlr, then unref the view; the
on_commit listener wrapper and the KILL_TX connection are destroyed with the
object. The soft-lock member is destroyed without any base->unlock() call. -/
def instr_dtor (w : world_t) : world_t :=
  let w1 := unlock_tree_wlr w
  { w1 with
    view := { w1.view with refcount := w1.view.refcount - 1 },
    on_commit := none,
    on_kill_connected := false }

/-- Translation of xdg_view_state_t::set_pending (lines 178-184). -/
def state_set_pending (desired : Nat) (w : world_t) : world_t :=
  { w with view := { w.view with pending := { w.view.pending with tiled_edges := desired } } }

/-- Translation of xdg_view_state_t::commit (lines 186-213): soft-lock the
tree; with no protocol object fall into the epilogue (which then dereferences
the null object); when server_pending.tiled already equals the desired edges,
run the epilogue immediately; otherwise send set_maximized and set_tiled (which
schedules a configure carrying the next serial and records the desired value as
server pending), send a frame, and arm on_commit with the returned serial. -/
def state_commit (desired : Nat) (w0 : world_t) : Option world_t :=
  let w := lock_tree w0
  match w.view.xdg_toplevel with
  | none => emit_final_size_and_ready w
  | some tl =>
    if tl.server_pending_tiled = desired then
      emit_final_size_and_ready w
    else
      some { w with
        view := { w.view with xdg_toplevel := some { tl with
          server_pending_tiled := desired, next_serial := tl.next_serial + 1 } },
        events := w.events ++
          [ev_t.set_maximized (decide (desired = TILED_EDGES_ALL)),
           ev_t.set_tiled desired tl.next_serial,
           ev_t.frame tl.surface],
        on_commit := some tl.next_serial }

/-- Translation of xdg_view_state_t::apply (lines 215-221): unlock the soft
locks, swap the live tiled edges and notify with the old value. -/
def state_apply (desired : Nat) (w0 : world_t) : world_t :=
  let w := unlock_tree w0
  { w with
    view := { w.view with state := { w.view.state with tiled_edges := desired } },
    events := w.events ++ [ev_t.update_tiled w.view.state.tiled_edges] }

/-- The members of xdg_view_geometry_t: target geometry, the gravity captured
at set_pending time, and whether the change is client initiated. -/
structure geo_instr_t where
  target : geometry_t
  current_gravity : gravity_t
  client_initiated : Bool
deriving DecidableEq

/-- Translation of the xdg_view_geometry_t constructor (lines 231-243): base
construction, then, for a client-initiated change, grab the soft locks at once. -/
def geometry_ctor (client : Bool) (w : world_t) : world_t :=
  let w1 := instr_ctor w
  if client then lock_tree w1 else w1

/-- Translation of xdg_view_geometry_t::set_pending (lines 245-250): capture
the pending gravity into the instruction and stage the target geometry. -/
def geometry_set_pending (g : geo_instr_t) (w : world_t) : geo_instr_t × world_t :=
  ({ g with current_gravity := w.view.pending.gravity },
   { w with view := { w.view with pending := { w.view.pending with geometry := g.target } } })

/-- Translation of xdg_view_geometry_t::commit (lines 252-286): soft-lock the
tree; with no protocol object fall into the epilogue (which then dereferences
the null object); for a client-initiated change run the epilogue immediately;
otherwise shrink the target by the frame margins when a frame exists, send
set_size (scheduling a configure with the next serial), send a frame and arm
on_commit with the returned serial. -/
def geometry_commit (g : geo_instr_t) (w0 : world_t) : Option world_t :=
  let w := lock_tree w0
  match w.view.xdg_toplevel with
  | none => emit_final_size_and_ready w
  | some tl =>
    if g.client_initiated then
      emit_final_size_and_ready w
    else
      let cfg := match w.view.frame with
        | some m => shrink_by_margins g.target m
        | none => g.target
      some { w with
        view := { w.view with xdg_toplevel := some { tl with next_serial := tl.next_serial + 1 } },
        events := w.events ++
          [ev_t.set_size cfg.width cfg.height tl.next_serial, ev_t.frame tl.surface],
        on_commit := some tl.next_serial }

/-- Translation of xdg_view_geometry_t::apply (lines 288-312): damage, unlock
the soft locks, then read the realized box through view->xdg_toplevel->base
with no null check (modelled none when the protocol object vanished), align the
target with the captured gravity against the realized box, write the live
geometry, then derive the output geometry from box offsets and get_size() and
damage again. -/
def geometry_apply (g : geo_instr_t) (w0 : world_t) : Option (world_t × geo_instr_t) :=
  let w := unlock_tree { w0 with events := w0.events ++ [ev_t.damage] }
  match w.view.xdg_toplevel with
  | none => none
  | some tl =>
    let box := finalBox tl w.view.frame
    let t1 := align_with_gravity g.target box g.current_gravity
    let t2 : geometry_t :=
      { x := t1.x - box.x, y := t1.y - box.y, width := w.view.size_w, height := w.view.size_h }
    some
      ({ w with
        view := { w.view with
          state := { w.view.state with geometry := t1 },
          geometry := t2 },
        events := w.events ++ [ev_t.damage] },
       { g with target := t2 })

/-- Translation of xdg_view_gravity_t::set_pending (lines 326-330). -/
def gravity_set_pending (g : gravity_t) (w : world_t) : world_t :=
  { w with view := { w.view with pending := { w.view.pending with gravity := g } } }

/-- Translation of xdg_view_gravity_t::commit (lines 332-335): no client round
trip, just the shared epilogue. -/
def gravity_commit (w : world_t) : Option world_t := emit_final_size_and_ready w

/-- Translation of xdg_view_gravity_t::apply (lines 337-340). -/
def gravity_apply (g : gravity_t) (w : world_t) : world_t :=
  { w with view := { w.view with state := { w.view.state with gravity := g } } }

/-- Translation of xdg_view_map_t::set_pending (lines 348-352). -/
def map_set_pending (w : world_t) : world_t :=
  { w with view := { w.view with pending := { w.view.pending with mapped := true } } }

/-- Translation of xdg_view_map_t::commit (lines 354-358): soft-lock the tree
and run the shared epilogue. -/
def map_commit (w : world_t) : Option world_t :=
  emit_final_size_and_ready (lock_tree w)

/-- Translation of xdg_view_map_t::apply (lines 360-365): swap live
mapped=true, unlock the soft locks, perform the map side effect. -/
def map_apply (w0 : world_t) : world_t :=
  let w := unlock_tree { w0 with
    view := { w0.view with state := { w0.view.state with mapped := true } } }
  { w with events := w.events ++ [ev_t.map_view] }

/-- Translation of xdg_view_unmap_t::set_pending (lines 373-382): stage
mapped=false and take the hard locks immediately, inside stage, because the
surface may disappear before request runs. -/
def unmap_set_pending (w : world_t) : world_t :=
  lock_tree_wlr
    { w with view := { w.view with pending := { w.view.pending with mapped := false } } }

/-- Translation of xdg_view_unmap_t::commit (lines 384-387): emit the ready
signal directly, without the final-size epilogue. -/
def unmap_commit (w : world_t) : world_t :=
  { w with events := w.events ++ [ev_t.ready] }

/-- Translation of xdg_view_unmap_t::apply (lines 389-394): swap live
mapped=false, release the hard locks, perform the unmap side effect. -/
def unmap_apply (w0 : world_t) : world_t :=
  let w := unlock_tree_wlr { w0 with
    view := { w0.view with state := { w0.view.state with mapped := false } } }
  { w with events := w.events ++ [ev_t.unmap_view] }

/-- External client action: the client acknowledges the configure with the
given serial on its next commit, optionally attaching a newly realized surface
geometry. -/
def client_ack (serial : Nat) (realized : Option geometry_t) (w : world_t) : world_t :=
  match w.view.xdg_toplevel with
  | none => w
  | some tl =>
    { w with view := { w.view with xdg_toplevel := some { tl with
        configure_serial := serial,
        surface_geometry := realized.getD tl.surface_geometry } } }

/-- Drive an instruction from the post-request state to ready: when an
acknowledgment wait is armed, let the client acknowledge exactly the armed
serial and fire the commit listener (check_ready); otherwise ready was already
emitted during request. -/
def drive_ready (realized : Option geometry_t) (w : world_t) : Option world_t :=
  match w.on_commit with
  | none => some w
  | some serial =>
    match check_ready serial (client_ack serial realized w) with
    | some (true, w2) => some w2
    | _ => none

/-- Complete lifecycle of a tiling/state instruction: construct, stage,
request, acknowledge when needed, finalize, destroy. -/
def state_path (d : Nat) (w0 : world_t) : Option world_t :=
  (state_commit d (state_set_pending d (instr_ctor w0))).bind
    (fun w2 => (drive_ready none w2).map (fun w3 => instr_dtor (state_apply d w3)))

/-- The staged resize instruction and world: construct (optionally
client-initiated), then stage. -/
def geometry_stage (target : geometry_t) (client : Bool) (w0 : world_t) :
    geo_instr_t × world_t :=
  geometry_set_pending
    { target := target, current_gravity := gravity_t.top_left, client_initiated := client }
    (geometry_ctor client w0)

/-- Complete lifecycle of a resize instruction: construct (optionally
client-initiated), stage, request, acknowledge when needed (optionally with a
newly realized surface geometry), finalize, destroy. -/
def geometry_path (target : geometry_t) (client : Bool) (realized : Option geometry_t)
    (w0 : world_t) : Option world_t :=
  (geometry_commit (geometry_stage target client w0).1 (geometry_stage target client w0).2).bind
    (fun w2 => (drive_ready realized w2).bind
      (fun w3 => (geometry_apply (geometry_stage target client w0).1 w3).map
        (fun q => instr_dtor q.1)))

/-- Complete lifecycle of a gravity instruction. -/
def gravity_path (g : gravity_t) (w0 : world_t) : Option world_t :=
  (gravity_commit (gravity_set_pending g (instr_ctor w0))).map
    (fun w2 => instr_dtor (gravity_apply g w2))

/-- Complete lifecycle of a map instruction. -/
def map_path (w0 : world_t) : Option world_t :=
  (map_commit (map_set_pending (instr_ctor w0))).map (fun w2 => instr_dtor (map_apply w2))

/-- Complete lifecycle of an unmap instruction. -/
def unmap_path (w0 : world_t) : world_t :=
  instr_dtor (unmap_apply (unmap_commit (unmap_set_pending (instr_ctor w0))))

/-- Cancelled lifecycle of a tiling/state instruction: construct, stage,
request, then the window is destroyed before any acknowledgment, so the KILL_TX
hook fires and the instruction is destroyed. -/
def state_cancel_path (d : Nat) (w0 : world_t) : Option world_t :=
  (state_commit d (state_set_pending d (instr_ctor w0))).map
    (fun w2 => instr_dtor (on_kill_fire w2))

/-- Cancelled lifecycle of a resize instruction: construct, stage, request,
then the destruction hook fires before any acknowledgment and the instruction
is destroyed. -/
def geometry_cancel_path (target : geometry_t) (client : Bool) (w0 : world_t) :
    Option world_t :=
  (geometry_commit (geometry_stage target client w0).1 (geometry_stage target client w0).2).map
    (fun w2 => instr_dtor (on_kill_fire w2))

/-- Cancelled lifecycle of a gravity instruction: construct, stage, request,
then the destruction hook fires and the instruction is destroyed. -/
def gravity_cancel_path (g : gravity_t) (w0 : world_t) : Option world_t :=
  (gravity_commit (gravity_set_pending g (instr_ctor w0))).map
    (fun w2 => instr_dtor (on_kill_fire w2))

/-- Cancelled lifecycle of a map instruction: construct, stage, request, then
the destruction hook fires and the instruction is destroyed. -/
def map_cancel_path (w0 : world_t) : Option world_t :=
  (map_commit (map_set_pending (instr_ctor w0))).map
    (fun w2 => instr_dtor (on_kill_fire w2))

/-- Cancelled lifecycle of an unmap instruction with the destruction hook
firing between stage and request: the hard locks taken at stage time are still
held when the hook fires and the destructor must release them. -/
def unmap_cancel_path (w0 : world_t) : world_t :=
  instr_dtor (on_kill_fire (unmap_set_pending (instr_ctor w0)))

/-- Number of occurrences of an event in a trace. -/
def countEv (e : ev_t) : List ev_t → Nat
  | [] => 0
  | a :: rest => (if a = e then 1 else 0) + countEv e rest

/-- The shared finalize-epilogue discipline on a trace extension: either the
extension emits no ready at all, or it ends with exactly one final-size
notification immediately followed by the single ready, with no earlier ready
and no earlier final-size in the extension. -/
def readyFinalOk (old new : List ev_t) : Prop :=
  ∃ δ, new = old ++ δ ∧
    (ev_t.ready ∉ δ ∨
      ∃ δ1 a b, δ = δ1 ++ [ev_t.final_size a b, ev_t.ready]
        ∧ ev_t.ready ∉ δ1 ∧ ∀ e ∈ δ1, e.isFinalSize = false)

/-- Concrete target geometry used by the scenario runs. -/
def gTarget : geometry_t := { x := 100, y := 100, width := 400, height := 300 }

/-- Concrete live toplevel for the scenario runs: nothing acknowledged yet, the
next scheduled configure will carry serial 7. -/
def tl0 : toplevel_t :=
  { configure_serial := 0, next_serial := 7, server_pending_tiled := 0,
    surface_geometry := { x := 0, y := 0, width := 800, height := 600 },
    surface := 0 }

/-- The concrete geometry (0,0,800,600) of the scenario window. -/
def g800 : geometry_t := { x := 0, y := 0, width := 800, height := 600 }

/-- Concrete pending/current state of the scenario window. -/
def vs0 : view_state_t :=
  { mapped := true, tiled_edges := 0, geometry := g800, gravity := gravity_t.top_left }

/-- Concrete view at geometry (0,0,800,600) with a single-surface tree. -/
def view0 : view_t :=
  { xdg_toplevel := some tl0, pending := vs0, state := vs0,
    frame := none, surface_tree := [0], wlr_surface := some 0,
    size_w := 800, size_h := 600, geometry := g800, refcount := 1 }

/-- Concrete quiescent world: no locks held anywhere, empty trace. -/
def w0 : world_t :=
  { view := view0, held_locks := [], held_soft_locks := fun _ => false,
    on_commit := none, on_kill_connected := false, softCount := fun _ => 0,
    hardCount := fun _ => 0, nextToken := 0, events := [] }

/-- The same world after the protocol object vanished (view->xdg_toplevel
became null between scheduling and execution). -/
def wNull : world_t :=
  { w0 with view := { view0 with xdg_toplevel := none } }

/-- The resize-scenario world: decoration margin top = 30, all others 0. -/
def w06 : world_t :=
  { w0 with view := { view0 with
      frame := some { left := 0, right := 0, top := 30, bottom := 0 } } }

/-- Concrete resize-instruction payload. -/
def gi0 : geo_instr_t :=
  { target := gTarget, current_gravity := gravity_t.top_left, client_initiated := false }

theorem keyCount_append (m1 m2 : List (Nat × Nat)) (s : Nat) :
    keyCount (m1 ++ m2) s = keyCount m1 s + keyCount m2 s := by
  induction m1 with
  | nil => simp [keyCount]
  | cons p rest ih =>
    obtain ⟨k, v⟩ := p
    simp only [List.cons_append, keyCount, List.append_eq, ih]
    omega

theorem hasKey_append (m1 m2 : List (Nat × Nat)) (s : Nat) :
    hasKey (m1 ++ m2) s = (hasKey m1 s || hasKey m2 s) := by
  induction m1 with
  | nil => simp [hasKey]
  | cons p rest ih =>
    obtain ⟨k, v⟩ := p
    simp only [List.cons_append, hasKey, List.append_eq, ih, Bool.or_assoc]

theorem keyCount_mapReplace (m : List (Nat × Nat)) (k v s : Nat) :
    keyCount (m.map (fun p => if p.1 = k then (k, v) else p)) s = keyCount m s := by
  induction m with
  | nil => rfl
  | cons p rest ih =>
    obtain ⟨a, b⟩ := p
    rw [List.map_cons]
    have hd : (if (a, b).1 = k then (k, v) else (a, b)) = if a = k then (k, v) else (a, b) := rfl
    rw [hd]
    by_cases h : a = k
    · subst h; rw [if_pos rfl]; simp [keyCount, ih]
    · rw [if_neg h]; simp [keyCount, ih]

theorem hasKey_mapReplace (m : List (Nat × Nat)) (k v s : Nat) :
    hasKey (m.map (fun p => if p.1 = k then (k, v) else p)) s = hasKey m s := by
  induction m with
  | nil => rfl
  | cons p rest ih =>
    obtain ⟨a, b⟩ := p
    rw [List.map_cons]
    have hd : (if (a, b).1 = k then (k, v) else (a, b)) = if a = k then (k, v) else (a, b) := rfl
    rw [hd]
    by_cases h : a = k
    · subst h; rw [if_pos rfl]; simp [hasKey, ih]
    · rw [if_neg h]; simp [hasKey, ih]

theorem hasKey_mapSet (m : List (Nat × Nat)) (k v x : Nat) :
    hasKey (mapSet m k v) x = (decide (x = k) || hasKey m x) := by
  unfold mapSet
  by_cases hk : hasKey m k
  · rw [if_pos hk, hasKey_mapReplace]
    by_cases hx : x = k
    · subst hx; simp [hk]
    · simp [hx]
  · rw [if_neg hk, hasKey_append]
    by_cases hx : x = k
    · subst hx; simp [hasKey]
    · have : ¬(k = x) := fun h => hx h.symm
      simp [hasKey, hx, this]

theorem keyCount_mapSet_absent (m : List (Nat × Nat)) (k v s : Nat)
    (h : hasKey m k = false) :
    keyCount (mapSet m k v) s = keyCount m s + (if k = s then 1 else 0) := by
  unfold mapSet
  rw [if_neg (by simp [h]), keyCount_append]
  simp [keyCount]

theorem occCount_eq_zero (L : List Nat) (s : Nat) (h : s ∉ L) : occCount L s = 0 := by
  induction L with
  | nil => rfl
  | cons a rest ih =>
    simp only [List.mem_cons, not_or] at h
    have : a ≠ s := fun hh => h.1 hh.symm
    simp only [occCount, if_neg this, ih h.2]

theorem occCount_nodup (L : List Nat) (s : Nat) (h : L.Nodup) :
    occCount L s = if s ∈ L then 1 else 0 := by
  induction L with
  | nil => simp [occCount]
  | cons a rest ih =>
    rw [List.nodup_cons] at h
    by_cases hs : s = a
    · subst hs
      simp only [occCount, if_pos rfl, ih h.2, List.mem_cons]
      simp [occCount_eq_zero rest s h.1, if_neg h.1]
    · have : a ≠ s := fun hh => hs hh.symm
      simp only [occCount, if_neg this, ih h.2, List.mem_cons]
      simp [hs]

theorem lock_list_view (L : List Nat) (w : world_t) : (lock_list L w).view = w.view := by
  induction L generalizing w with
  | nil => rfl
  | cons a rest ih => simp only [lock_list, ih]

theorem lock_list_held_locks (L : List Nat) (w : world_t) :
    (lock_list L w).held_locks = w.held_locks := by
  induction L generalizing w with
  | nil => rfl
  | cons a rest ih => simp only [lock_list, ih]

theorem lock_list_on_commit (L : List Nat) (w : world_t) :
    (lock_list L w).on_commit = w.on_commit := by
  induction L generalizing w with
  | nil => rfl
  | cons a rest ih => simp only [lock_list, ih]

theorem lock_list_on_kill (L : List Nat) (w : world_t) :
    (lock_list L w).on_kill_connected = w.on_kill_connected := by
  induction L generalizing w with
  | nil => rfl
  | cons a rest ih => simp only [lock_list, ih]

theorem lock_list_hardCount (L : List Nat) (w : world_t) :
    (lock_list L w).hardCount = w.hardCount := by
  induction L generalizing w with
  | nil => rfl
  | cons a rest ih => simp only [lock_list, ih]

theorem lock_list_nextToken (L : List Nat) (w : world_t) :
    (lock_list L w).nextToken = w.nextToken := by
  induction L generalizing w with
  | nil => rfl
  | cons a rest ih => simp only [lock_list, ih]

theorem lock_list_events (L : List Nat) (w : world_t) :
    (lock_list L w).events = w.events ++ L.map ev_t.soft_lock := by
  induction L generalizing w with
  | nil => simp [lock_list]
  | cons a rest ih => simp [lock_list, ih]

theorem lock_list_softCount (L : List Nat) (w : world_t) (s : Nat) :
    (lock_list L w).softCount s = w.softCount s + occCount L s := by
  induction L generalizing w with
  | nil => simp [lock_list, occCount]
  | cons a rest ih =>
    simp only [lock_list, ih, occCount]
    by_cases h : s = a
    · subst h; simp; omega
    · have h2 : a ≠ s := fun hh => h hh.symm
      simp [h, h2]

theorem lock_list_flags (L : List Nat) (w : world_t) (s : Nat) :
    (lock_list L w).held_soft_locks s = if s ∈ L then true else w.held_soft_locks s := by
  induction L generalizing w with
  | nil => simp [lock_list]
  | cons a rest ih =>
    simp only [lock_list, ih, List.mem_cons]
    by_cases h : s = a
    · subst h; simp
    · simp [h]

theorem unlock_list_view (L : List Nat) (w : world_t) : (unlock_list L w).view = w.view := by
  induction L generalizing w with
  | nil => rfl
  | cons a rest ih =>
    simp only [unlock_list]
    by_cases h : w.held_soft_locks a
    · rw [if_pos h, ih]
    · rw [if_neg h, ih]

theorem unlock_list_held_locks (L : List Nat) (w : world_t) :
    (unlock_list L w).held_locks = w.held_locks := by
  induction L generalizing w with
  | nil => rfl
  | cons a rest ih =>
    simp only [unlock_list]
    by_cases h : w.held_soft_locks a
    · rw [if_pos h, ih]
    · rw [if_neg h, ih]

theorem unlock_list_on_commit (L : List Nat) (w : world_t) :
    (unlock_list L w).on_commit = w.on_commit := by
  induction L generalizing w with
  | nil => rfl
  | cons a rest ih =>
    simp only [unlock_list]
    by_cases h : w.held_soft_locks a
    · rw [if_pos h, ih]
    · rw [if_neg h, ih]

theorem unlock_list_on_kill (L : List Nat) (w : world_t) :
    (unlock_list L w).on_kill_connected = w.on_kill_connected := by
  induction L generalizing w with
  | nil => rfl
  | cons a rest ih =>
    simp only [unlock_list]
    by_cases h : w.held_soft_locks a
    · rw [if_pos h, ih]
    · rw [if_neg h, ih]

theorem unlock_list_hardCount (L : List Nat) (w : world_t) :
    (unlock_list L w).hardCount = w.hardCount := by
  induction L generalizing w with
  | nil => rfl
  | cons a rest ih =>
    simp only [unlock_list]
    by_cases h : w.held_soft_locks a
    · rw [if_pos h, ih]
    · rw [if_neg h, ih]

theorem unlock_list_nextToken (L : List Nat) (w : world_t) :
    (unlock_list L w).nextToken = w.nextToken := by
  induction L generalizing w with
  | nil => rfl
  | cons a rest ih =>
    simp only [unlock_list]
    by_cases h : w.held_soft_locks a
    · rw [if_pos h, ih]
    · rw [if_neg h, ih]

theorem unlock_list_softCount (L : List Nat) (w : world_t) (s : Nat) :
    (unlock_list L w).softCount s =
      w.softCount s - (if s ∈ L ∧ w.held_soft_locks s = true then 1 else 0) := by
  induction L generalizing w with
  | nil => simp [unlock_list]
  | cons a rest ih =>
    simp only [unlock_list]
    by_cases hf : w.held_soft_locks a
    · rw [if_pos hf, ih]
      by_cases h : s = a
      · subst h
        simp [hf]
      · have h2 : a ≠ s := fun hh => h hh.symm
        simp only [List.mem_cons, h, false_or]
        simp [h2, h]
    · rw [if_neg hf, ih]
      by_cases h : s = a
      · subst h
        simp only [Bool.not_eq_true] at hf
        simp [hf]
      · simp only [List.mem_cons, h, false_or]

theorem unlock_list_flags (L : List Nat) (w : world_t) (s : Nat) :
    (unlock_list L w).held_soft_locks s = if s ∈ L then false else w.held_soft_locks s := by
  induction L generalizing w with
  | nil => simp [unlock_list]
  | cons a rest ih =>
    simp only [unlock_list]
    by_cases hf : w.held_soft_locks a
    · rw [if_pos hf, ih]
      by_cases h : s = a
      · subst h; simp
      · have h2 : s ≠ a := h
        simp only [List.mem_cons, h2, false_or]
        simp [h2]
    · rw [if_neg hf, ih]
      by_cases h : s = a
      · subst h
        simp only [Bool.not_eq_true] at hf
        simp [hf]
      · simp only [List.mem_cons, h, false_or]

theorem lock_wlr_list_view (L : List Nat) (w : world_t) :
    (lock_wlr_list L w).view = w.view := by
  induction L generalizing w with
  | nil => rfl
  | cons a rest ih => simp only [lock_wlr_list, ih]

theorem lock_wlr_list_on_commit (L : List Nat) (w : world_t) :
    (lock_wlr_list L w).on_commit = w.on_commit := by
  induction L generalizing w with
  | nil => rfl
  | cons a rest ih => simp only [lock_wlr_list, ih]

theorem lock_wlr_list_on_kill (L : List Nat) (w : world_t) :
    (lock_wlr_list L w).on_kill_connected = w.on_kill_connected := by
  induction L generalizing w with
  | nil => rfl
  | cons a rest ih => simp only [lock_wlr_list, ih]

theorem lock_wlr_list_softCount (L : List Nat) (w : world_t) :
    (lock_wlr_list L w).softCount = w.softCount := by
  induction L generalizing w with
  | nil => rfl
  | cons a rest ih => simp only [lock_wlr_list, ih]

theorem lock_wlr_list_flags (L : List Nat) (w : world_t) :
    (lock_wlr_list L w).held_soft_locks = w.held_soft_locks := by
  induction L generalizing w with
  | nil => rfl
  | cons a rest ih => simp only [lock_wlr_list, ih]

theorem lock_wlr_list_events (L : List Nat) (w : world_t) :
    (lock_wlr_list L w).events = w.events := by
  induction L generalizing w with
  | nil => rfl
  | cons a rest ih => simp only [lock_wlr_list, ih]

theorem lock_wlr_list_hardCount (L : List Nat) (w : world_t) (s : Nat) :
    (lock_wlr_list L w).hardCount s = w.hardCount s + occCount L s := by
  induction L generalizing w with
  | nil => simp [lock_wlr_list, occCount]
  | cons a rest ih =>
    simp only [lock_wlr_list, ih, occCount]
    by_cases h : s = a
    · subst h; simp; omega
    · have h2 : a ≠ s := fun hh => h hh.symm
      simp [h, h2]

theorem lock_wlr_list_hasKey (L : List Nat) (w : world_t) (s : Nat) :
    hasKey (lock_wlr_list L w).held_locks s = (decide (s ∈ L) || hasKey w.held_locks s) := by
  induction L generalizing w with
  | nil => simp [lock_wlr_list]
  | cons a rest ih =>
    simp only [lock_wlr_list, ih, hasKey_mapSet, List.mem_cons]
    by_cases h : s = a
    · subst h; simp
    · simp [h]

theorem lock_wlr_list_keyCount (L : List Nat) (w : world_t) (s : Nat)
    (hnd : L.Nodup) (h : ∀ x ∈ L, hasKey w.held_locks x = false) :
    keyCount (lock_wlr_list L w).held_locks s = keyCount w.held_locks s + occCount L s := by
  induction L generalizing w with
  | nil => simp [lock_wlr_list, occCount]
  | cons a rest ih =>
    rw [List.nodup_cons] at hnd
    have ha : hasKey w.held_locks a = false := h a (by simp)
    simp only [lock_wlr_list]
    rw [ih _ hnd.2]
    · rw [keyCount_mapSet_absent _ _ _ _ ha]
      simp only [occCount]
      omega
    · intro x hx
      rw [hasKey_mapSet]
      have hxa : x ≠ a := fun hh => hnd.1 (hh ▸ hx)
      simp [hxa, h x (by simp [hx])]

theorem unlock_wlr_list_view (M : List (Nat × Nat)) (w : world_t) :
    (unlock_wlr_list M w).view = w.view := by
  induction M generalizing w with
  | nil => rfl
  | cons p rest ih => obtain ⟨k, v⟩ := p; simp only [unlock_wlr_list, ih]

theorem unlock_wlr_list_on_commit (M : List (Nat × Nat)) (w : world_t) :
    (unlock_wlr_list M w).on_commit = w.on_commit := by
  induction M generalizing w with
  | nil => rfl
  | cons p rest ih => obtain ⟨k, v⟩ := p; simp only [unlock_wlr_list, ih]

theorem unlock_wlr_list_softCount (M : List (Nat × Nat)) (w : world_t) :
    (unlock_wlr_list M w).softCount = w.softCount := by
  induction M generalizing w with
  | nil => rfl
  | cons p rest ih => obtain ⟨k, v⟩ := p; simp only [unlock_wlr_list, ih]

theorem unlock_wlr_list_flags (M : List (Nat × Nat)) (w : world_t) :
    (unlock_wlr_list M w).held_soft_locks = w.held_soft_locks := by
  induction M generalizing w with
  | nil => rfl
  | cons p rest ih => obtain ⟨k, v⟩ := p; simp only [unlock_wlr_list, ih]

theorem unlock_wlr_list_events (M : List (Nat × Nat)) (w : world_t) :
    (unlock_wlr_list M w).events = w.events := by
  induction M generalizing w with
  | nil => rfl
  | cons p rest ih => obtain ⟨k, v⟩ := p; simp only [unlock_wlr_list, ih]

theorem unlock_wlr_list_held_locks (M : List (Nat × Nat)) (w : world_t) :
    (unlock_wlr_list M w).held_locks = w.held_locks := by
  induction M generalizing w with
  | nil => rfl
  | cons p rest ih => obtain ⟨k, v⟩ := p; simp only [unlock_wlr_list, ih]

theorem unlock_wlr_list_hardCount (M : List (Nat × Nat)) (w : world_t) (s : Nat) :
    (unlock_wlr_list M w).hardCount s = w.hardCount s - keyCount M s := by
  induction M generalizing w with
  | nil => simp [unlock_wlr_list, keyCount]
  | cons p rest ih =>
    obtain ⟨k, v⟩ := p
    simp only [unlock_wlr_list, ih, keyCount]
    by_cases h : s = k
    · subst h; simp; omega
    · have h2 : k ≠ s := fun hh => h hh.symm
      simp [h, h2]

theorem emit_some (w : world_t) (tl : toplevel_t) (h : w.view.xdg_toplevel = some tl) :
    emit_final_size_and_ready w = some { w with
      events := w.events ++
        [ev_t.final_size (finalBox tl w.view.frame).width (finalBox tl w.view.frame).height,
         ev_t.ready] } := by
  unfold emit_final_size_and_ready
  rw [h]

theorem instr_dtor_held_locks (w : world_t) : (instr_dtor w).held_locks = [] := by
  simp [instr_dtor, unlock_tree_wlr]

theorem instr_dtor_hardCount (w : world_t) (s : Nat) :
    (instr_dtor w).hardCount s = w.hardCount s - keyCount w.held_locks s := by
  simp [instr_dtor, unlock_tree_wlr, unlock_wlr_list_hardCount]

theorem instr_dtor_softCount (w : world_t) : (instr_dtor w).softCount = w.softCount := by
  simp [instr_dtor, unlock_tree_wlr, unlock_wlr_list_softCount]

theorem instr_dtor_flags (w : world_t) :
    (instr_dtor w).held_soft_locks = w.held_soft_locks := by
  simp [instr_dtor, unlock_tree_wlr, unlock_wlr_list_flags]

theorem instr_dtor_events (w : world_t) : (instr_dtor w).events = w.events := by
  simp [instr_dtor, unlock_tree_wlr, unlock_wlr_list_events]

/-- C3: acknowledgment matcher characterization. For all 32-bit values, the
match is achieved exactly when current is nonzero and either current is at
least target with a difference below UINT32_MAX / 2 (no wrap) or target
exceeds current with a difference above UINT32_MAX / 2 (wrapped); in
particular the result is false for current = 0, true for target = current once
current is nonzero, true for current = target + 1 without wrap, true for
current = 5 with target = UINT32_MAX - 3, and false for current = target - 1. -/
theorem C3_serial_matcher (current target : Nat)
    (hc : current < 4294967296) (ht : target < 4294967296) :
    (check_ready_matcher current target = true ↔
      (current ≠ 0 ∧ ((target ≤ current ∧ current - target < 2147483647)
        ∨ (current < target ∧ 2147483647 < target - current))))
  ∧ (current = 0 → check_ready_matcher current target = false)
  ∧ (0 < current → check_ready_matcher current current = true)
  ∧ (target + 1 < 4294967296 → check_ready_matcher (target + 1) target = true)
  ∧ check_ready_matcher 5 (UINT32_MAX - 3) = true
  ∧ (0 < target → check_ready_matcher (target - 1) target = false) := by
  refine ⟨?_, ?_, ?_, ?_, ?_, ?_⟩
  · simp only [check_ready_matcher, UINT32_MAX, Bool.and_eq_true, Bool.or_eq_true,
      decide_eq_true_eq]
    omega
  · intro h
    subst h
    simp [check_ready_matcher]
  · intro h
    simp only [check_ready_matcher, UINT32_MAX, Bool.and_eq_true, Bool.or_eq_true,
      decide_eq_true_eq]
    omega
  · intro h
    simp only [check_ready_matcher, UINT32_MAX, Bool.and_eq_true, Bool.or_eq_true,
      decide_eq_true_eq]
    omega
  · decide
  · intro h
    simp only [check_ready_matcher, UINT32_MAX]
    have h1 : decide (target ≤ target - 1) = false := by
      simp only [decide_eq_false_iff_not]
      omega
    have h2 : decide (4294967295 / 2 < target - (target - 1)) = false := by
      simp only [decide_eq_false_iff_not]
      omega
    simp [h1, h2]

/-- Witness for C3: the matcher hypotheses are satisfiable, for instance at
current = target = 7 the matcher reports achievement. -/
theorem C3_serial_matcher_witness :
    (7 : Nat) < 4294967296 ∧ check_ready_matcher 7 7 = true :=
  ⟨by decide, (C3_serial_matcher 7 7 (by decide) (by decide)).2.2.1 (by decide)⟩

theorem lock_tree_view (w : world_t) : (lock_tree w).view = w.view :=
  lock_list_view _ _

theorem lock_tree_events (w : world_t) :
    (lock_tree w).events = w.events ++ w.view.surface_tree.map ev_t.soft_lock :=
  lock_list_events _ _

theorem lock_tree_on_commit (w : world_t) : (lock_tree w).on_commit = w.on_commit :=
  lock_list_on_commit _ _

theorem lock_tree_held_locks (w : world_t) : (lock_tree w).held_locks = w.held_locks :=
  lock_list_held_locks _ _

theorem lock_tree_hardCount (w : world_t) : (lock_tree w).hardCount = w.hardCount :=
  lock_list_hardCount _ _

theorem lock_tree_softCount (w : world_t) (s : Nat) :
    (lock_tree w).softCount s = w.softCount s + occCount w.view.surface_tree s :=
  lock_list_softCount _ _ _

theorem lock_tree_flags (w : world_t) (s : Nat) :
    (lock_tree w).held_soft_locks s = if s ∈ w.view.surface_tree then true else w.held_soft_locks s :=
  lock_list_flags _ _ _

/-- C7: the unmap instruction takes the hard locks during stage (set_pending),
not during request (commit): after stage on a freshly constructed instruction,
pending.mapped is false, the hard-lock record already holds a token for every
surface in the tree and each surface's external pending-lock count has risen by
its multiplicity; commit itself only appends the ready signal and changes no
lock state. -/
theorem C7_unmap_stage_locks (w : world_t) :
    ((unmap_set_pending (instr_ctor w)).view.pending.mapped = false)
  ∧ (∀ s ∈ w.view.surface_tree,
      hasKey (unmap_set_pending (instr_ctor w)).held_locks s = true)
  ∧ (∀ s, (unmap_set_pending (instr_ctor w)).hardCount s
      = w.hardCount s + occCount w.view.surface_tree s)
  ∧ (∀ w2, (unmap_commit w2).events = w2.events ++ [ev_t.ready]
      ∧ (unmap_commit w2).held_locks = w2.held_locks
      ∧ (unmap_commit w2).hardCount = w2.hardCount
      ∧ (unmap_commit w2).softCount = w2.softCount
      ∧ (unmap_commit w2).view = w2.view) := by
  refine ⟨?_, ?_, ?_, ?_⟩
  · unfold unmap_set_pending lock_tree_wlr
    rw [lock_wlr_list_view]
  · intro s hs
    unfold unmap_set_pending lock_tree_wlr
    rw [lock_wlr_list_hasKey]
    simp only [instr_ctor]
    simp [hasKey, hs]
  · intro s
    unfold unmap_set_pending lock_tree_wlr
    rw [lock_wlr_list_hardCount]
    rfl
  · intro w2
    exact ⟨rfl, rfl, rfl, rfl, rfl⟩

/-- Witness for C7: on the concrete single-surface world, after stage the
hard-lock record holds a token for surface 0. -/
theorem C7_witness :
    (0 : Nat) ∈ w0.view.surface_tree
  ∧ hasKey (unmap_set_pending (instr_ctor w0)).held_locks 0 = true :=
  ⟨by decide, (C7_unmap_stage_locks w0).2.1 0 (by decide)⟩

/-- C9: the tiling no-op: when request finds the desired edges equal to the
protocol object's server-pending tiled value, it sends no configure message
and arms no acknowledgment wait (on_commit unchanged, held hard locks
unchanged, hard-lock counters unchanged, view unchanged); the trace grows only
by the soft-lock invocations of the tree followed immediately by final-size
and ready, all within the same call. -/
theorem C9_tiling_noop (w : world_t) (d : Nat) (tl : toplevel_t)
    (htl : w.view.xdg_toplevel = some tl)
    (hno : tl.server_pending_tiled = d) :
    ∃ w2, state_commit d w = some w2
      ∧ w2.events = w.events ++ w.view.surface_tree.map ev_t.soft_lock
          ++ [ev_t.final_size (finalBox tl w.view.frame).width
              (finalBox tl w.view.frame).height, ev_t.ready]
      ∧ w2.on_commit = w.on_commit
      ∧ w2.hardCount = w.hardCount
      ∧ w2.held_locks = w.held_locks
      ∧ w2.view = w.view := by
  have hv : (lock_tree w).view = w.view := lock_tree_view w
  have htl2 : (lock_tree w).view.xdg_toplevel = some tl := by rw [hv, htl]
  have hcommit : state_commit d w = some { lock_tree w with
      events := (lock_tree w).events ++
        [ev_t.final_size (finalBox tl (lock_tree w).view.frame).width
          (finalBox tl (lock_tree w).view.frame).height, ev_t.ready] } := by
    simp only [state_commit, htl2, hno, if_pos]
    rw [emit_some (lock_tree w) tl htl2]
  refine ⟨_, hcommit, ?_, ?_, ?_, ?_, ?_⟩
  · show (lock_tree w).events ++ _ = _
    rw [lock_tree_events, hv, List.append_assoc]
  · show (lock_tree w).on_commit = w.on_commit
    exact lock_tree_on_commit w
  · show (lock_tree w).hardCount = w.hardCount
    exact lock_tree_hardCount w
  · show (lock_tree w).held_locks = w.held_locks
    exact lock_tree_held_locks w
  · exact hv

/-- Witness for C9: on the concrete world, requesting tiled edges 0 (the value
already server pending) arms no wait and sends nothing. -/
theorem C9_witness :
    w0.view.xdg_toplevel = some tl0
  ∧ tl0.server_pending_tiled = 0
  ∧ ∃ w2, state_commit 0 w0 = some w2 ∧ w2.on_commit = w0.on_commit := by
  refine ⟨rfl, rfl, ?_⟩
  obtain ⟨w2, h1, _, h3, _, _, _⟩ := C9_tiling_noop w0 0 tl0 rfl rfl
  exact ⟨w2, h1, h3⟩

/-- C8: the claimed vanished-protocol short circuit actually dereferences the
vanished object: when view->xdg_toplevel is null at request time, both the
tiling/state variant and the resize variant branch to
emit_final_size_and_ready, but that helper reads view->xdg_toplevel->base
(line 104), so the call crashes (modelled none) instead of publishing
final-size and emitting ready. -/
theorem C8_vanished_crash (w : world_t) (d : Nat) (g : geo_instr_t)
    (h : w.view.xdg_toplevel = none) :
    state_commit d w = none ∧ geometry_commit g w = none := by
  have hv : (lock_tree w).view.xdg_toplevel = none := by rw [lock_tree_view, h]
  constructor
  · simp only [state_commit, hv, emit_final_size_and_ready]
  · simp only [geometry_commit, hv, emit_final_size_and_ready]

/-- Witness for C8: the concrete world whose protocol object vanished makes
both request variants crash in the epilogue. -/
theorem C8_witness :
    wNull.view.xdg_toplevel = none
  ∧ state_commit 0 wNull = none
  ∧ geometry_commit gi0 wNull = none := by
  have h := C8_vanished_crash wNull 0 gi0 rfl
  exact ⟨rfl, h.1, h.2⟩

/-- C10 (amended): the resize finalize (apply) dereferences the protocol
object with no null check, so it succeeds exactly when the protocol object is
still live; and the request-time short-circuit path cannot in fact deliver a
ready with a null protocol object, because request itself already dereferences
the null object inside emit_final_size_and_ready and crashes. -/
theorem C10_resize_finalize_liveness (w : world_t) (g : geo_instr_t) :
    ((geometry_apply g w).isSome ↔ w.view.xdg_toplevel.isSome)
  ∧ (w.view.xdg_toplevel = none → geometry_commit g w = none) := by
  constructor
  · have hv : (unlock_tree { w with events := w.events ++ [ev_t.damage] }).view = w.view := by
      unfold unlock_tree
      rw [unlock_list_view]
    simp only [geometry_apply, hv]
    cases htl : w.view.xdg_toplevel with
    | none => simp
    | some tl => simp
  · intro h
    have hv2 : (lock_tree w).view.xdg_toplevel = none := by rw [lock_tree_view, h]
    simp only [geometry_commit, hv2, emit_final_size_and_ready]

/-- Witness for C10: with a live protocol object, finalize of a resize
instruction succeeds on the concrete world. -/
theorem C10_witness :
    w0.view.xdg_toplevel.isSome = true ∧ (geometry_apply gi0 w0).isSome = true := by
  constructor
  · rfl
  · exact ((C10_resize_finalize_liveness w0 gi0).1).mpr rfl

/-- Counterexample for C10 as stated: at the concrete world whose protocol
object is null, the request-time short circuit does not reach ready at all
(and finalize also crashes) — the instruction cannot legitimately reach ready
with a null protocol object. -/
theorem C10_counterexample :
    wNull.view.xdg_toplevel = none
  ∧ geometry_commit gi0 wNull = none
  ∧ geometry_apply gi0 wNull = none := by
  refine ⟨rfl, rfl, rfl⟩

/-- C5 (amended): lock_tree is not idempotent in its lock invocations: every
call invokes base->lock() once per surface of the tree unconditionally (the
trace grows by one soft_lock event per surface on every call, and two
consecutive calls raise each surface's logical lock count by twice its
multiplicity); only the held_soft_locks marking is idempotent (set to true
whether or not it already was). -/
theorem C5_lock_tree_not_idempotent (w : world_t) (s : Nat) :
    ((lock_tree w).events = w.events ++ w.view.surface_tree.map ev_t.soft_lock)
  ∧ ((lock_tree w).held_soft_locks s
      = if s ∈ w.view.surface_tree then true else w.held_soft_locks s)
  ∧ ((lock_tree (lock_tree w)).softCount s
      = w.softCount s + 2 * occCount w.view.surface_tree s) := by
  refine ⟨lock_tree_events w, lock_tree_flags w s, ?_⟩
  have ht : (lock_tree w).view.surface_tree = w.view.surface_tree := by
    rw [lock_tree_view]
  show (lock_list (lock_tree w).view.surface_tree (lock_tree w)).softCount s = _
  rw [ht, lock_list_softCount, lock_tree_softCount]
  omega

/-- Counterexample for C5 as stated: a client-initiated geometry instruction
soft-locks the tree in its constructor and again in request, so by the end of
request the logical lock of surface 0 has been invoked twice (two soft_lock
events, external lock count 2), not at most once. -/
theorem C5_counterexample :
    ∃ w2, geometry_commit { gi0 with client_initiated := true }
        (geometry_ctor true w0) = some w2
      ∧ countEv (ev_t.soft_lock 0) w2.events = 2
      ∧ w2.softCount 0 = 2 := by
  refine ⟨_, rfl, rfl, rfl⟩

/-- C2 (amended): the destruction hook detaches any pending acknowledgment
wait and emits cancel exactly once (never ready); at destruction every
recorded hard lock is released and the record is cleared; but the soft locks
the instruction holds are not released on this path: the external logical lock
counters are unchanged by the hook and by destruction. -/
theorem C2_cancel_hook (w : world_t) :
    ((on_kill_fire w).on_commit = none)
  ∧ ((on_kill_fire w).events = w.events ++ [ev_t.cancel])
  ∧ ((on_kill_fire w).softCount = w.softCount)
  ∧ ((on_kill_fire w).hardCount = w.hardCount)
  ∧ ((instr_dtor (on_kill_fire w)).held_locks = [])
  ∧ (∀ s, (instr_dtor (on_kill_fire w)).hardCount s
      = w.hardCount s - keyCount w.held_locks s)
  ∧ ((instr_dtor (on_kill_fire w)).softCount = w.softCount)
  ∧ ((instr_dtor (on_kill_fire w)).events = w.events ++ [ev_t.cancel]) := by
  refine ⟨rfl, rfl, rfl, rfl, instr_dtor_held_locks _, ?_, ?_, ?_⟩
  · intro s
    rw [instr_dtor_hardCount]
    rfl
  · rw [instr_dtor_softCount]
    rfl
  · rw [instr_dtor_events]
    rfl

/-- Counterexample for C2 as stated: the concrete cancellation scenario (resize
instruction, stage and request done, destruction hook fired before any
acknowledgment, instruction destroyed) emits cancel exactly once and ready
never, but one soft lock on surface 0 is still held afterwards. -/
theorem C2_counterexample :
    ∃ wf, geometry_cancel_path gTarget false w0 = some wf
      ∧ countEv ev_t.cancel wf.events = 1
      ∧ countEv ev_t.ready wf.events = 0
      ∧ wf.softCount 0 = 1
      ∧ wf.hardCount 0 = 0
      ∧ wf.held_locks = [] := by
  refine ⟨_, rfl, rfl, rfl, rfl, rfl, rfl⟩

theorem emit_delta (w w2 : world_t) (h : emit_final_size_and_ready w = some w2) :
    ∃ a b, w2.events = w.events ++ [ev_t.final_size a b, ev_t.ready]
      ∧ w2.view = w.view ∧ w2.on_commit = w.on_commit := by
  cases htl : w.view.xdg_toplevel with
  | none => simp [emit_final_size_and_ready, htl] at h
  | some tl =>
    rw [emit_some w tl htl, Option.some_inj] at h
    refine ⟨(finalBox tl w.view.frame).width, (finalBox tl w.view.frame).height, ?_, ?_, ?_⟩ <;>
      rw [← h]

theorem ready_not_mem_soft (L : List Nat) : ev_t.ready ∉ L.map ev_t.soft_lock := by
  simp [List.mem_map]

theorem isFinalSize_soft (L : List Nat) :
    ∀ e ∈ L.map ev_t.soft_lock, e.isFinalSize = false := by
  intro e he
  rw [List.mem_map] at he
  obtain ⟨x, -, rfl⟩ := he
  rfl

theorem readyFinalOk_emit_after_lock (w w2 : world_t)
    (h : emit_final_size_and_ready (lock_tree w) = some w2) :
    readyFinalOk w.events w2.events := by
  obtain ⟨a, b, hev, -, -⟩ := emit_delta _ _ h
  rw [lock_tree_events, List.append_assoc] at hev
  exact ⟨_, hev, Or.inr ⟨_, a, b, rfl, ready_not_mem_soft _, isFinalSize_soft _⟩⟩

/-- C4 (amended): every path through request or the acknowledgment callback
that emits ready does so through the shared epilogue — the trace extension
ends with exactly one final-size notification immediately followed by the
single ready, with no earlier ready or final-size in the extension — for the
gravity, map, tiling/state and resize variants and for check_ready; the unmap
variant is the exception: its request emits ready directly with no final-size
notification. -/
theorem C4_finalize_epilogue :
    (∀ w w2, gravity_commit w = some w2 → readyFinalOk w.events w2.events)
  ∧ (∀ w w2, map_commit w = some w2 → readyFinalOk w.events w2.events)
  ∧ (∀ d w w2, state_commit d w = some w2 → readyFinalOk w.events w2.events)
  ∧ (∀ g w w2, geometry_commit g w = some w2 → readyFinalOk w.events w2.events)
  ∧ (∀ t w b w2, check_ready t w = some (b, w2) → readyFinalOk w.events w2.events)
  ∧ (∀ w, (unmap_commit w).events = w.events ++ [ev_t.ready]
      ∧ ∀ e ∈ [ev_t.ready], e.isFinalSize = false) := by
  refine ⟨?_, ?_, ?_, ?_, ?_, ?_⟩
  · intro w w2 h
    obtain ⟨a, b, hev, -, -⟩ := emit_delta _ _ h
    exact ⟨_, hev, Or.inr ⟨[], a, b, rfl, by simp, by simp⟩⟩
  · intro w w2 h
    exact readyFinalOk_emit_after_lock _ _ h
  · intro d w w2 h
    cases htl : (lock_tree w).view.xdg_toplevel with
    | none =>
      simp only [state_commit, htl] at h
      exact readyFinalOk_emit_after_lock _ _ h
    | some tl =>
      simp only [state_commit, htl] at h
      by_cases hno : tl.server_pending_tiled = d
      · rw [if_pos hno] at h
        exact readyFinalOk_emit_after_lock _ _ h
      · rw [if_neg hno, Option.some_inj] at h
        refine ⟨w.view.surface_tree.map ev_t.soft_lock ++
          [ev_t.set_maximized (decide (d = TILED_EDGES_ALL)),
           ev_t.set_tiled d tl.next_serial, ev_t.frame tl.surface], ?_, Or.inl ?_⟩
        · rw [← h]
          show (lock_tree w).events ++ _ = _
          rw [lock_tree_events, List.append_assoc]
        · simp [List.mem_append, List.mem_map]
  · intro g w w2 h
    cases htl : (lock_tree w).view.xdg_toplevel with
    | none =>
      simp only [geometry_commit, htl] at h
      exact readyFinalOk_emit_after_lock _ _ h
    | some tl =>
      simp only [geometry_commit, htl] at h
      by_cases hcl : g.client_initiated = true
      · rw [if_pos hcl] at h
        exact readyFinalOk_emit_after_lock _ _ h
      · rw [if_neg hcl] at h
        cases hf : (lock_tree w).view.frame with
        | none =>
          simp only [hf, Option.some_inj] at h
          subst h
          refine ⟨w.view.surface_tree.map ev_t.soft_lock ++
            [ev_t.set_size g.target.width g.target.height tl.next_serial,
             ev_t.frame tl.surface], ?_, Or.inl ?_⟩
          · show (lock_tree w).events ++ _ = _
            rw [lock_tree_events, List.append_assoc]
          · simp [List.mem_append, List.mem_map]
        | some m =>
          simp only [hf, Option.some_inj] at h
          subst h
          refine ⟨w.view.surface_tree.map ev_t.soft_lock ++
            [ev_t.set_size (shrink_by_margins g.target m).width
              (shrink_by_margins g.target m).height tl.next_serial,
             ev_t.frame tl.surface], ?_, Or.inl ?_⟩
          · show (lock_tree w).events ++ _ = _
            rw [lock_tree_events, List.append_assoc]
          · simp [List.mem_append, List.mem_map]
  · intro t w b w2 h
    cases htl : w.view.xdg_toplevel with
    | none => simp [check_ready, htl] at h
    | some tl =>
      simp only [check_ready, htl] at h
      by_cases hm : check_ready_matcher tl.configure_serial t = true
      · rw [if_pos hm] at h
        have htl2 : (lock_tree_wlr { w with on_commit := none }).view.xdg_toplevel = some tl := by
          unfold lock_tree_wlr
          rw [lock_wlr_list_view]
          exact htl
        rw [emit_some _ tl htl2, Option.map_some', Option.some_inj, Prod.mk.injEq] at h
        obtain ⟨-, hw⟩ := h
        have hev : w2.events = w.events ++
            [ev_t.final_size (finalBox tl (lock_tree_wlr { w with on_commit := none }).view.frame).width
              (finalBox tl (lock_tree_wlr { w with on_commit := none }).view.frame).height,
             ev_t.ready] := by
          rw [← hw]
          show (lock_tree_wlr { w with on_commit := none }).events ++ _ = _
          unfold lock_tree_wlr
          rw [lock_wlr_list_events]
        exact ⟨_, hev, Or.inr ⟨[], _, _, rfl, by simp, by simp⟩⟩
      · rw [if_neg hm] at h
        cases hs : w.view.wlr_surface with
        | none =>
          simp only [hs, Option.some_inj, Prod.mk.injEq] at h
          obtain ⟨-, hw⟩ := h
          exact ⟨[], by rw [← hw, List.append_nil], Or.inl (by simp)⟩
        | some s =>
          simp only [hs, Option.some_inj, Prod.mk.injEq] at h
          obtain ⟨-, hw⟩ := h
          refine ⟨[ev_t.frame s], by rw [← hw], Or.inl (by simp)⟩
  · intro w
    refine ⟨rfl, ?_⟩
    intro e he
    simp only [List.mem_singleton] at he
    subst he
    rfl

/-- Witness for C4: the gravity variant's request on the concrete world emits
final-size immediately followed by ready. -/
theorem C4_witness :
    ∃ w2, gravity_commit w0 = some w2 ∧ readyFinalOk w0.events w2.events := by
  refine ⟨_, rfl, ?_⟩
  exact C4_finalize_epilogue.1 w0 _ rfl

/-- Counterexample for C4 as stated: the complete unmap lifecycle on the
concrete world emits ready exactly once and no final-size notification ever
appears in its trace. -/
theorem C4_counterexample :
    countEv ev_t.ready (unmap_path w0).events = 1
  ∧ (unmap_path w0).events.all (fun e => !e.isFinalSize) = true :=
  ⟨rfl, rfl⟩

/-- C6: resize margin and gravity round trip on the concrete scenario: window
at (0,0,800,600) with decoration margin top = 30 and others 0, requesting
target (100,100,400,300) sends a configure of size (400,270); after the client
acknowledges with realized surface geometry (0,0,400,270), finalize publishes
a final box of size (400,300) (height 300, margin re-added) and sets the live
geometry by aligning the target against the realized box under the gravity
captured at stage time (top_left), yielding (100,100,400,300). -/
theorem C6_resize_round_trip :
    ∃ wf, geometry_path gTarget false
        (some { x := 0, y := 0, width := 400, height := 270 }) w06 = some wf
      ∧ countEv (ev_t.set_size 400 270 7) wf.events = 1
      ∧ countEv (ev_t.final_size 400 300) wf.events = 1
      ∧ wf.view.state.geometry = align_with_gravity gTarget
          { x := 0, y := -30, width := 400, height := 300 } gravity_t.top_left
      ∧ align_with_gravity gTarget { x := 0, y := -30, width := 400, height := 300 }
          gravity_t.top_left = gTarget := by
  refine ⟨_, rfl, ?_, ?_, ?_, ?_⟩ <;> rfl

theorem check_ready_matcher_self (n : Nat) (h : 0 < n) :
    check_ready_matcher n n = true := by
  simp only [check_ready_matcher, UINT32_MAX, Bool.and_eq_true, Bool.or_eq_true,
    decide_eq_true_eq]
  omega

theorem drive_ready_none (realized : Option geometry_t) (w : world_t)
    (h : w.on_commit = none) : drive_ready realized w = some w := by
  simp only [drive_ready, h]

theorem unlock_tree_view (w : world_t) : (unlock_tree w).view = w.view :=
  unlock_list_view _ _

theorem unlock_tree_held_locks (w : world_t) :
    (unlock_tree w).held_locks = w.held_locks :=
  unlock_list_held_locks _ _

theorem unlock_tree_on_commit (w : world_t) : (unlock_tree w).on_commit = w.on_commit :=
  unlock_list_on_commit _ _

theorem unlock_tree_hardCount (w : world_t) : (unlock_tree w).hardCount = w.hardCount :=
  unlock_list_hardCount _ _

theorem unlock_tree_softCount (w : world_t) (s : Nat) :
    (unlock_tree w).softCount s =
      w.softCount s - (if s ∈ w.view.surface_tree ∧ w.held_soft_locks s = true then 1 else 0) :=
  unlock_list_softCount _ _ _

theorem check_ready_success (t : Nat) (w : world_t) (tl : toplevel_t)
    (htl : w.view.xdg_toplevel = some tl)
    (hm : check_ready_matcher tl.configure_serial t = true) :
    check_ready t w = some (true,
      { lock_tree_wlr { w with on_commit := none } with
        events := (lock_tree_wlr { w with on_commit := none }).events ++
          [ev_t.final_size (finalBox tl w.view.frame).width (finalBox tl w.view.frame).height,
           ev_t.ready] }) := by
  have htl2 : (lock_tree_wlr { w with on_commit := none }).view.xdg_toplevel = some tl := by
    unfold lock_tree_wlr
    rw [lock_wlr_list_view]
    exact htl
  have hfr : (lock_tree_wlr { w with on_commit := none }).view.frame = w.view.frame := by
    unfold lock_tree_wlr
    rw [lock_wlr_list_view]
  simp only [check_ready, htl, hm, if_true]
  rw [emit_some _ tl htl2, Option.map_some', hfr]

theorem drive_ready_armed (w : world_t) (tl : toplevel_t) (serial : Nat)
    (realized : Option geometry_t)
    (hnd : w.view.surface_tree.Nodup)
    (hheld : w.held_locks = [])
    (hoc : w.on_commit = some serial)
    (htl : w.view.xdg_toplevel = some tl)
    (hser : 0 < serial) :
    ∃ w2 tl2, drive_ready realized w = some w2
      ∧ w2.view.xdg_toplevel = some tl2
      ∧ w2.softCount = w.softCount
      ∧ w2.held_soft_locks = w.held_soft_locks
      ∧ (∀ s, w2.hardCount s = w.hardCount s + occCount w.view.surface_tree s)
      ∧ (∀ s, keyCount w2.held_locks s = occCount w.view.surface_tree s)
      ∧ w2.on_commit = none
      ∧ w2.view.surface_tree = w.view.surface_tree
      ∧ w2.view.frame = w.view.frame := by
  have hA : client_ack serial realized w = { w with view := { w.view with xdg_toplevel := some { tl with configure_serial := serial, surface_geometry := realized.getD tl.surface_geometry } } } := by
    simp only [client_ack, htl]
  have hck := check_ready_success serial (client_ack serial realized w)
    { tl with configure_serial := serial, surface_geometry := realized.getD tl.surface_geometry }
    (by rw [hA])
    (by
      show check_ready_matcher serial serial = true
      exact check_ready_matcher_self serial hser)
  have hdrive : drive_ready realized w = some
      { lock_tree_wlr { client_ack serial realized w with on_commit := none } with
        events := (lock_tree_wlr { client_ack serial realized w with on_commit := none }).events ++
          [ev_t.final_size
            (finalBox { tl with configure_serial := serial, surface_geometry := realized.getD tl.surface_geometry } (client_ack serial realized w).view.frame).width
            (finalBox { tl with configure_serial := serial, surface_geometry := realized.getD tl.surface_geometry } (client_ack serial realized w).view.frame).height,
           ev_t.ready] } := by
    simp only [drive_ready, hoc, hck]
  refine ⟨_, { tl with configure_serial := serial, surface_geometry := realized.getD tl.surface_geometry }, hdrive, ?_, ?_, ?_, ?_, ?_, ?_, ?_, ?_⟩
  · show (lock_tree_wlr { client_ack serial realized w with on_commit := none }).view.xdg_toplevel = _
    unfold lock_tree_wlr
    rw [lock_wlr_list_view, hA]
  · show (lock_tree_wlr { client_ack serial realized w with on_commit := none }).softCount = _
    unfold lock_tree_wlr
    rw [lock_wlr_list_softCount, hA]
  · show (lock_tree_wlr { client_ack serial realized w with on_commit := none }).held_soft_locks = _
    unfold lock_tree_wlr
    rw [lock_wlr_list_flags, hA]
  · intro s
    show (lock_tree_wlr { client_ack serial realized w with on_commit := none }).hardCount s = _
    unfold lock_tree_wlr
    rw [lock_wlr_list_hardCount, hA]
  · intro s
    show keyCount (lock_tree_wlr { client_ack serial realized w with on_commit := none }).held_locks s = _
    unfold lock_tree_wlr
    rw [lock_wlr_list_keyCount _ _ _ ?hn ?hk]
    case hn =>
      rw [hA]
      exact hnd
    case hk =>
      rw [hA]
      intro x hx
      show hasKey w.held_locks x = false
      rw [hheld]
      rfl
    rw [hA]
    show keyCount w.held_locks s + occCount w.view.surface_tree s = occCount w.view.surface_tree s
    rw [hheld]
    show 0 + occCount w.view.surface_tree s = occCount w.view.surface_tree s
    omega
  · show (lock_tree_wlr { client_ack serial realized w with on_commit := none }).on_commit = none
    unfold lock_tree_wlr
    rw [lock_wlr_list_on_commit]
  · show (lock_tree_wlr { client_ack serial realized w with on_commit := none }).view.surface_tree = _
    unfold lock_tree_wlr
    rw [lock_wlr_list_view, hA]
  · show (lock_tree_wlr { client_ack serial realized w with on_commit := none }).view.frame = _
    unfold lock_tree_wlr
    rw [lock_wlr_list_view, hA]

theorem emit_after_lock_form (w : world_t) (tl : toplevel_t)
    (htl : w.view.xdg_toplevel = some tl) :
    ∃ w2, emit_final_size_and_ready (lock_tree w) = some w2
      ∧ w2.view.xdg_toplevel = some tl
      ∧ w2.on_commit = w.on_commit
      ∧ w2.held_locks = w.held_locks
      ∧ w2.hardCount = w.hardCount
      ∧ (∀ s, w2.softCount s = w.softCount s + occCount w.view.surface_tree s)
      ∧ (∀ s, w2.held_soft_locks s = if s ∈ w.view.surface_tree then true else w.held_soft_locks s)
      ∧ w2.view.surface_tree = w.view.surface_tree := by
  have htl2 : (lock_tree w).view.xdg_toplevel = some tl := by rw [lock_tree_view, htl]
  refine ⟨_, emit_some _ tl htl2, htl2, ?_, ?_, ?_, ?_, ?_, ?_⟩
  · show (lock_tree w).on_commit = w.on_commit
    exact lock_tree_on_commit w
  · show (lock_tree w).held_locks = w.held_locks
    exact lock_tree_held_locks w
  · show (lock_tree w).hardCount = w.hardCount
    exact lock_tree_hardCount w
  · intro s
    show (lock_tree w).softCount s = _
    exact lock_tree_softCount w s
  · intro s
    show (lock_tree w).held_soft_locks s = _
    exact lock_tree_flags w s
  · show (lock_tree w).view.surface_tree = w.view.surface_tree
    rw [lock_tree_view]

theorem state_commit_send (d : Nat) (w : world_t) (tl : toplevel_t)
    (htl : w.view.xdg_toplevel = some tl)
    (hne : tl.server_pending_tiled ≠ d) :
    ∃ w2 tl2, state_commit d w = some w2
      ∧ w2.view.xdg_toplevel = some tl2
      ∧ w2.on_commit = some tl.next_serial
      ∧ w2.held_locks = w.held_locks
      ∧ w2.hardCount = w.hardCount
      ∧ (∀ s, w2.softCount s = w.softCount s + occCount w.view.surface_tree s)
      ∧ (∀ s, w2.held_soft_locks s = if s ∈ w.view.surface_tree then true else w.held_soft_locks s)
      ∧ w2.view.surface_tree = w.view.surface_tree := by
  have htl2 : (lock_tree w).view.xdg_toplevel = some tl := by rw [lock_tree_view, htl]
  have hc : state_commit d w = some { lock_tree w with
      view := { (lock_tree w).view with xdg_toplevel := some { tl with server_pending_tiled := d, next_serial := tl.next_serial + 1 } },
      events := (lock_tree w).events ++ [ev_t.set_maximized (decide (d = TILED_EDGES_ALL)), ev_t.set_tiled d tl.next_serial, ev_t.frame tl.surface],
      on_commit := some tl.next_serial } := by
    simp only [state_commit, htl2, if_neg hne]
  refine ⟨_, _, hc, rfl, rfl, ?_, ?_, ?_, ?_, ?_⟩
  · show (lock_tree w).held_locks = w.held_locks
    exact lock_tree_held_locks w
  · show (lock_tree w).hardCount = w.hardCount
    exact lock_tree_hardCount w
  · intro s
    show (lock_tree w).softCount s = _
    exact lock_tree_softCount w s
  · intro s
    show (lock_tree w).held_soft_locks s = _
    exact lock_tree_flags w s
  · show (lock_tree w).view.surface_tree = w.view.surface_tree
    rw [lock_tree_view]

theorem geometry_commit_send (g : geo_instr_t) (w : world_t) (tl : toplevel_t)
    (htl : w.view.xdg_toplevel = some tl)
    (hcl : ¬g.client_initiated = true) :
    ∃ w2 tl2, geometry_commit g w = some w2
      ∧ w2.view.xdg_toplevel = some tl2
      ∧ w2.on_commit = some tl.next_serial
      ∧ w2.held_locks = w.held_locks
      ∧ w2.hardCount = w.hardCount
      ∧ (∀ s, w2.softCount s = w.softCount s + occCount w.view.surface_tree s)
      ∧ (∀ s, w2.held_soft_locks s = if s ∈ w.view.surface_tree then true else w.held_soft_locks s)
      ∧ w2.view.surface_tree = w.view.surface_tree := by
  have htl2 : (lock_tree w).view.xdg_toplevel = some tl := by rw [lock_tree_view, htl]
  cases hf : (lock_tree w).view.frame with
  | none =>
    have hc : geometry_commit g w = some { lock_tree w with
        view := { (lock_tree w).view with xdg_toplevel := some { tl with next_serial := tl.next_serial + 1 } },
        events := (lock_tree w).events ++ [ev_t.set_size g.target.width g.target.height tl.next_serial, ev_t.frame tl.surface],
        on_commit := some tl.next_serial } := by
      simp only [geometry_commit, htl2, if_neg hcl, hf]
    refine ⟨_, _, hc, rfl, rfl, ?_, ?_, ?_, ?_, ?_⟩
    · show (lock_tree w).held_locks = w.held_locks
      exact lock_tree_held_locks w
    · show (lock_tree w).hardCount = w.hardCount
      exact lock_tree_hardCount w
    · intro s
      show (lock_tree w).softCount s = _
      exact lock_tree_softCount w s
    · intro s
      show (lock_tree w).held_soft_locks s = _
      exact lock_tree_flags w s
    · show (lock_tree w).view.surface_tree = w.view.surface_tree
      rw [lock_tree_view]
  | some m =>
    have hc : geometry_commit g w = some { lock_tree w with
        view := { (lock_tree w).view with xdg_toplevel := some { tl with next_serial := tl.next_serial + 1 } },
        events := (lock_tree w).events ++ [ev_t.set_size (shrink_by_margins g.target m).width (shrink_by_margins g.target m).height tl.next_serial, ev_t.frame tl.surface],
        on_commit := some tl.next_serial } := by
      simp only [geometry_commit, htl2, if_neg hcl, hf]
    refine ⟨_, _, hc, rfl, rfl, ?_, ?_, ?_, ?_, ?_⟩
    · show (lock_tree w).held_locks = w.held_locks
      exact lock_tree_held_locks w
    · show (lock_tree w).hardCount = w.hardCount
      exact lock_tree_hardCount w
    · intro s
      show (lock_tree w).softCount s = _
      exact lock_tree_softCount w s
    · intro s
      show (lock_tree w).held_soft_locks s = _
      exact lock_tree_flags w s
    · show (lock_tree w).view.surface_tree = w.view.surface_tree
      rw [lock_tree_view]

theorem geometry_commit_client_form (g : geo_instr_t) (w : world_t) (tl : toplevel_t)
    (htl : w.view.xdg_toplevel = some tl)
    (hcl : g.client_initiated = true) :
    ∃ w2, geometry_commit g w = some w2
      ∧ w2.view.xdg_toplevel = some tl
      ∧ w2.on_commit = w.on_commit
      ∧ w2.held_locks = w.held_locks
      ∧ w2.hardCount = w.hardCount
      ∧ (∀ s, w2.softCount s = w.softCount s + occCount w.view.surface_tree s)
      ∧ (∀ s, w2.held_soft_locks s = if s ∈ w.view.surface_tree then true else w.held_soft_locks s)
      ∧ w2.view.surface_tree = w.view.surface_tree := by
  have htl2 : (lock_tree w).view.xdg_toplevel = some tl := by rw [lock_tree_view, htl]
  obtain ⟨w2, he, h1, h2, h3, h4, h5, h6, h7⟩ := emit_after_lock_form w tl htl
  refine ⟨w2, ?_, h1, h2, h3, h4, h5, h6, h7⟩
  simp only [geometry_commit, htl2, if_pos hcl]
  exact he

theorem state_apply_projs (d : Nat) (w : world_t) :
    ((state_apply d w).held_locks = w.held_locks)
  ∧ ((state_apply d w).hardCount = w.hardCount)
  ∧ (∀ s, (state_apply d w).softCount s
      = w.softCount s - (if s ∈ w.view.surface_tree ∧ w.held_soft_locks s = true then 1 else 0)) := by
  refine ⟨?_, ?_, ?_⟩
  · show (unlock_tree w).held_locks = w.held_locks
    exact unlock_tree_held_locks w
  · show (unlock_tree w).hardCount = w.hardCount
    exact unlock_tree_hardCount w
  · intro s
    show (unlock_tree w).softCount s = _
    exact unlock_tree_softCount w s

theorem map_apply_projs (w : world_t) :
    ((map_apply w).held_locks = w.held_locks)
  ∧ ((map_apply w).hardCount = w.hardCount)
  ∧ (∀ s, (map_apply w).softCount s
      = w.softCount s - (if s ∈ w.view.surface_tree ∧ w.held_soft_locks s = true then 1 else 0)) := by
  refine ⟨?_, ?_, ?_⟩
  · show (unlock_tree { w with view := { w.view with state := { w.view.state with mapped := true } } }).held_locks = w.held_locks
    exact unlock_tree_held_locks _
  · show (unlock_tree { w with view := { w.view with state := { w.view.state with mapped := true } } }).hardCount = w.hardCount
    exact unlock_tree_hardCount _
  · intro s
    show (unlock_tree { w with view := { w.view with state := { w.view.state with mapped := true } } }).softCount s = _
    exact unlock_tree_softCount _ s

theorem geometry_apply_form (g : geo_instr_t) (w : world_t) (tl : toplevel_t)
    (htl : w.view.xdg_toplevel = some tl) :
    ∃ w2 g2, geometry_apply g w = some (w2, g2)
      ∧ w2.held_locks = w.held_locks
      ∧ w2.hardCount = w.hardCount
      ∧ (∀ s, w2.softCount s = w.softCount s
          - (if s ∈ w.view.surface_tree ∧ w.held_soft_locks s = true then 1 else 0)) := by
  have htl2 : (unlock_tree { w with events := w.events ++ [ev_t.damage] }).view.xdg_toplevel
      = some tl := by
    rw [unlock_tree_view]
    exact htl
  simp only [geometry_apply, htl2]
  refine ⟨_, _, rfl, ?_, ?_, ?_⟩
  · show (unlock_tree { w with events := w.events ++ [ev_t.damage] }).held_locks = w.held_locks
    exact unlock_tree_held_locks _
  · show (unlock_tree { w with events := w.events ++ [ev_t.damage] }).hardCount = w.hardCount
    exact unlock_tree_hardCount _
  · intro s
    show (unlock_tree { w with events := w.events ++ [ev_t.damage] }).softCount s = _
    exact unlock_tree_softCount _ s

theorem unlock_tree_wlr_hardCount (w : world_t) (s : Nat) :
    (unlock_tree_wlr w).hardCount s = w.hardCount s - keyCount w.held_locks s :=
  unlock_wlr_list_hardCount _ _ _

theorem unlock_tree_wlr_held (w : world_t) : (unlock_tree_wlr w).held_locks = [] := rfl

theorem unlock_tree_wlr_softCount (w : world_t) :
    (unlock_tree_wlr w).softCount = w.softCount :=
  unlock_wlr_list_softCount _ _

theorem state_commit_emit (d : Nat) (w : world_t) (tl : toplevel_t)
    (htl : w.view.xdg_toplevel = some tl)
    (hno : tl.server_pending_tiled = d) :
    ∃ w2, state_commit d w = some w2
      ∧ w2.view.xdg_toplevel = some tl
      ∧ w2.on_commit = w.on_commit
      ∧ w2.held_locks = w.held_locks
      ∧ w2.hardCount = w.hardCount
      ∧ (∀ s, w2.softCount s = w.softCount s + occCount w.view.surface_tree s)
      ∧ (∀ s, w2.held_soft_locks s = if s ∈ w.view.surface_tree then true else w.held_soft_locks s)
      ∧ w2.view.surface_tree = w.view.surface_tree := by
  have htl2 : (lock_tree w).view.xdg_toplevel = some tl := by rw [lock_tree_view, htl]
  obtain ⟨w2, he, h1, h2, h3, h4, h5, h6, h7⟩ := emit_after_lock_form w tl htl
  refine ⟨w2, ?_, h1, h2, h3, h4, h5, h6, h7⟩
  simp only [state_commit, htl2, hno, if_pos]
  exact he

theorem unmap_set_pending_projs (w : world_t) (hnd : w.view.surface_tree.Nodup)
    (hheld : w.held_locks = []) :
    ((unmap_set_pending w).softCount = w.softCount)
  ∧ (∀ s, (unmap_set_pending w).hardCount s = w.hardCount s + occCount w.view.surface_tree s)
  ∧ (∀ s, keyCount (unmap_set_pending w).held_locks s = occCount w.view.surface_tree s) := by
  refine ⟨?_, ?_, ?_⟩
  · unfold unmap_set_pending lock_tree_wlr
    exact lock_wlr_list_softCount _ _
  · intro s
    unfold unmap_set_pending lock_tree_wlr
    rw [lock_wlr_list_hardCount]
  · intro s
    unfold unmap_set_pending lock_tree_wlr
    rw [lock_wlr_list_keyCount _ _ _ ?h1 ?h2]
    case h1 => exact hnd
    case h2 =>
      intro x hx
      show hasKey w.held_locks x = false
      rw [hheld]
      rfl
    show keyCount w.held_locks s + occCount w.view.surface_tree s = occCount w.view.surface_tree s
    rw [hheld]
    show 0 + occCount w.view.surface_tree s = occCount w.view.surface_tree s
    omega

theorem unmap_apply_projs (w : world_t) :
    ((unmap_apply w).held_locks = [])
  ∧ (∀ s, (unmap_apply w).hardCount s = w.hardCount s - keyCount w.held_locks s)
  ∧ ((unmap_apply w).softCount = w.softCount) := by
  refine ⟨rfl, ?_, ?_⟩
  · intro s
    show (unlock_tree_wlr { w with view := { w.view with state := { w.view.state with mapped := false } } }).hardCount s = _
    rw [unlock_tree_wlr_hardCount]
  · show (unlock_tree_wlr { w with view := { w.view with state := { w.view.state with mapped := false } } }).softCount = _
    rw [unlock_tree_wlr_softCount]

theorem state_path_locks (w : world_t) (tl : toplevel_t) (d : Nat)
    (hnd : w.view.surface_tree.Nodup)
    (htl : w.view.xdg_toplevel = some tl)
    (hser : 0 < tl.next_serial) :
    ∃ wf, state_path d w = some wf ∧ wf.held_locks = []
      ∧ (∀ s, wf.hardCount s = w.hardCount s)
      ∧ (∀ s, wf.softCount s = w.softCount s) := by
  by_cases hno : tl.server_pending_tiled = d
  · obtain ⟨w2, hc, htlB, hocB, hheldB, hhardB, hsoftB, hflagsB, htreeB⟩ :=
      state_commit_emit d (state_set_pending d (instr_ctor w)) tl htl hno
    have hoc2 : w2.on_commit = none := by rw [hocB]; rfl
    have hdrive := drive_ready_none none w2 hoc2
    obtain ⟨ha1, ha2, ha3⟩ := state_apply_projs d w2
    refine ⟨instr_dtor (state_apply d w2), ?_, instr_dtor_held_locks _, ?_, ?_⟩
    · simp only [state_path, hc, Option.some_bind, hdrive, Option.map_some']
    · intro s
      rw [instr_dtor_hardCount, ha1, hheldB, ha2, hhardB]
      show w.hardCount s - keyCount [] s = w.hardCount s
      simp [keyCount]
    · intro s
      rw [instr_dtor_softCount, ha3 s, hsoftB s, hflagsB s, htreeB]
      show w.softCount s + occCount w.view.surface_tree s
        - (if s ∈ w.view.surface_tree ∧ (if s ∈ w.view.surface_tree then true else false) = true then 1 else 0)
        = w.softCount s
      rw [occCount_nodup _ _ hnd]
      by_cases hm : s ∈ w.view.surface_tree
      · simp [hm]
      · simp [hm]
  · obtain ⟨w2, tl2, hc, htlB, hocB, hheldB, hhardB, hsoftB, hflagsB, htreeB⟩ :=
      state_commit_send d (state_set_pending d (instr_ctor w)) tl htl hno
    have hnd2 : w2.view.surface_tree.Nodup := by rw [htreeB]; exact hnd
    have hheld2 : w2.held_locks = [] := by rw [hheldB]; rfl
    obtain ⟨w3, tl3, hdr, htlC, hsoftC, hflagsC, hhardC, hkeyC, hocC, htreeC, hfrC⟩ :=
      drive_ready_armed w2 tl2 tl.next_serial none hnd2 hheld2 hocB htlB hser
    obtain ⟨ha1, ha2, ha3⟩ := state_apply_projs d w3
    refine ⟨instr_dtor (state_apply d w3), ?_, instr_dtor_held_locks _, ?_, ?_⟩
    · simp only [state_path, hc, Option.some_bind, hdr, Option.map_some']
    · intro s
      rw [instr_dtor_hardCount, ha1, ha2, hhardC s, hkeyC s, hhardB, htreeB]
      show w.hardCount s + occCount w.view.surface_tree s - occCount w.view.surface_tree s
        = w.hardCount s
      omega
    · intro s
      rw [instr_dtor_softCount, ha3 s, hsoftC, hflagsC, htreeC, hsoftB s, hflagsB s, htreeB]
      show w.softCount s + occCount w.view.surface_tree s
        - (if s ∈ w.view.surface_tree ∧ (if s ∈ w.view.surface_tree then true else false) = true then 1 else 0)
        = w.softCount s
      rw [occCount_nodup _ _ hnd]
      by_cases hm : s ∈ w.view.surface_tree
      · simp [hm]
      · simp [hm]

theorem gravity_commit_form (w : world_t) (tl : toplevel_t)
    (htl : w.view.xdg_toplevel = some tl) :
    ∃ w2, gravity_commit w = some w2
      ∧ w2.view.xdg_toplevel = some tl
      ∧ w2.on_commit = w.on_commit
      ∧ w2.held_locks = w.held_locks
      ∧ w2.hardCount = w.hardCount
      ∧ w2.softCount = w.softCount
      ∧ w2.held_soft_locks = w.held_soft_locks :=
  ⟨_, emit_some w tl htl, htl, rfl, rfl, rfl, rfl, rfl⟩

theorem gravity_path_locks (w : world_t) (tl : toplevel_t) (gv : gravity_t)
    (htl : w.view.xdg_toplevel = some tl) :
    ∃ wf, gravity_path gv w = some wf ∧ wf.held_locks = []
      ∧ (∀ s, wf.hardCount s = w.hardCount s)
      ∧ (∀ s, wf.softCount s = w.softCount s) := by
  obtain ⟨w2, hc, htlB, hocB, hheldB, hhardB, hsoftB, hflagsB⟩ :=
    gravity_commit_form (gravity_set_pending gv (instr_ctor w)) tl htl
  refine ⟨instr_dtor (gravity_apply gv w2), ?_, instr_dtor_held_locks _, ?_, ?_⟩
  · simp only [gravity_path, hc, Option.map_some']
  · intro s
    rw [instr_dtor_hardCount]
    show w2.hardCount s - keyCount w2.held_locks s = w.hardCount s
    rw [hhardB, hheldB]
    show w.hardCount s - keyCount [] s = w.hardCount s
    simp [keyCount]
  · intro s
    rw [instr_dtor_softCount]
    show w2.softCount s = w.softCount s
    rw [hsoftB]
    rfl

theorem map_path_locks (w : world_t) (tl : toplevel_t)
    (hnd : w.view.surface_tree.Nodup)
    (htl : w.view.xdg_toplevel = some tl) :
    ∃ wf, map_path w = some wf ∧ wf.held_locks = []
      ∧ (∀ s, wf.hardCount s = w.hardCount s)
      ∧ (∀ s, wf.softCount s = w.softCount s) := by
  obtain ⟨w2, he, htlB, hocB, hheldB, hhardB, hsoftB, hflagsB, htreeB⟩ :=
    emit_after_lock_form (map_set_pending (instr_ctor w)) tl htl
  have hc : map_commit (map_set_pending (instr_ctor w)) = some w2 := he
  obtain ⟨hm1, hm2, hm3⟩ := map_apply_projs w2
  refine ⟨instr_dtor (map_apply w2), ?_, instr_dtor_held_locks _, ?_, ?_⟩
  · simp only [map_path, hc, Option.map_some']
  · intro s
    rw [instr_dtor_hardCount, hm1, hheldB, hm2, hhardB]
    show w.hardCount s - keyCount [] s = w.hardCount s
    simp [keyCount]
  · intro s
    rw [instr_dtor_softCount, hm3 s, hsoftB s, hflagsB s, htreeB]
    show w.softCount s + occCount w.view.surface_tree s
      - (if s ∈ w.view.surface_tree ∧ (if s ∈ w.view.surface_tree then true else false) = true then 1 else 0)
      = w.softCount s
    rw [occCount_nodup _ _ hnd]
    by_cases hm : s ∈ w.view.surface_tree
    · simp [hm]
    · simp [hm]

theorem unmap_path_locks (w : world_t)
    (hnd : w.view.surface_tree.Nodup) :
    ((unmap_path w).held_locks = [])
  ∧ (∀ s, (unmap_path w).hardCount s = w.hardCount s)
  ∧ (∀ s, (unmap_path w).softCount s = w.softCount s) := by
  obtain ⟨hu1, hu2, hu3⟩ := unmap_set_pending_projs (instr_ctor w) hnd rfl
  obtain ⟨ha1, ha2, ha3⟩ := unmap_apply_projs (unmap_commit (unmap_set_pending (instr_ctor w)))
  refine ⟨instr_dtor_held_locks _, ?_, ?_⟩
  · intro s
    unfold unmap_path
    rw [instr_dtor_hardCount, ha1, ha2 s]
    show (unmap_set_pending (instr_ctor w)).hardCount s
      - keyCount (unmap_set_pending (instr_ctor w)).held_locks s - keyCount [] s = w.hardCount s
    rw [hu2 s, hu3 s]
    show w.hardCount s + occCount w.view.surface_tree s - occCount w.view.surface_tree s
      - keyCount [] s = w.hardCount s
    simp only [keyCount]
    omega
  · intro s
    unfold unmap_path
    rw [instr_dtor_softCount, ha3]
    show (unmap_set_pending (instr_ctor w)).softCount s = w.softCount s
    rw [hu1]
    rfl

theorem geometry_path_locks (w : world_t) (tl : toplevel_t) (t : geometry_t)
    (realized : Option geometry_t)
    (hnd : w.view.surface_tree.Nodup)
    (htl : w.view.xdg_toplevel = some tl)
    (hser : 0 < tl.next_serial) :
    ∃ wf, geometry_path t false realized w = some wf ∧ wf.held_locks = []
      ∧ (∀ s, wf.hardCount s = w.hardCount s)
      ∧ (∀ s, wf.softCount s = w.softCount s) := by
  obtain ⟨w2, tl2, hc, htlB, hocB, hheldB, hhardB, hsoftB, hflagsB, htreeB⟩ :=
    geometry_commit_send (geometry_stage t false w).1 (geometry_stage t false w).2 tl htl
      (fun h => Bool.noConfusion h)
  have hnd2 : w2.view.surface_tree.Nodup := by rw [htreeB]; exact hnd
  have hheld2 : w2.held_locks = [] := by rw [hheldB]; rfl
  obtain ⟨w3, tl3, hdr, htlC, hsoftC, hflagsC, hhardC, hkeyC, hocC, htreeC, hfrC⟩ :=
    drive_ready_armed w2 tl2 tl.next_serial realized hnd2 hheld2 hocB htlB hser
  obtain ⟨w4, g4, happ, hb1, hb2, hb3⟩ :=
    geometry_apply_form (geometry_stage t false w).1 w3 tl3 htlC
  refine ⟨instr_dtor w4, ?_, instr_dtor_held_locks _, ?_, ?_⟩
  · simp only [geometry_path, hc, Option.some_bind, hdr, happ, Option.map_some']
  · intro s
    rw [instr_dtor_hardCount, hb1, hb2, hhardC s, hkeyC s, hhardB, htreeB]
    show w.hardCount s + occCount w.view.surface_tree s - occCount w.view.surface_tree s
      = w.hardCount s
    omega
  · intro s
    rw [instr_dtor_softCount, hb3 s, hsoftC, hflagsC, htreeC, hsoftB s, hflagsB s, htreeB]
    show w.softCount s + occCount w.view.surface_tree s
      - (if s ∈ w.view.surface_tree ∧ (if s ∈ w.view.surface_tree then true else false) = true then 1 else 0)
      = w.softCount s
    rw [occCount_nodup _ _ hnd]
    by_cases hm : s ∈ w.view.surface_tree
    · simp [hm]
    · simp [hm]

theorem geometry_client_path_locks (w : world_t) (tl : toplevel_t) (t : geometry_t)
    (hnd : w.view.surface_tree.Nodup)
    (htl : w.view.xdg_toplevel = some tl) :
    ∃ wf, geometry_path t true none w = some wf ∧ wf.held_locks = []
      ∧ (∀ s, wf.hardCount s = w.hardCount s)
      ∧ (∀ s, wf.softCount s = w.softCount s + (if s ∈ w.view.surface_tree then 1 else 0)) := by
  have hp_tl : (geometry_stage t true w).2.view.xdg_toplevel = some tl := by
    show (lock_tree (instr_ctor w)).view.xdg_toplevel = some tl
    rw [lock_tree_view]
    exact htl
  have hp_soft : ∀ s, (geometry_stage t true w).2.softCount s
      = w.softCount s + occCount w.view.surface_tree s := by
    intro s
    show (lock_tree (instr_ctor w)).softCount s = _
    rw [lock_tree_softCount]
    rfl
  have hp_flags : ∀ s, (geometry_stage t true w).2.held_soft_locks s
      = if s ∈ w.view.surface_tree then true else false := by
    intro s
    show (lock_tree (instr_ctor w)).held_soft_locks s = _
    rw [lock_tree_flags]
    rfl
  have hp_hard : (geometry_stage t true w).2.hardCount = w.hardCount := by
    show (lock_tree (instr_ctor w)).hardCount = _
    rw [lock_tree_hardCount]
    rfl
  have hp_held : (geometry_stage t true w).2.held_locks = [] := by
    show (lock_tree (instr_ctor w)).held_locks = _
    rw [lock_tree_held_locks]
    rfl
  have hp_tree : (geometry_stage t true w).2.view.surface_tree = w.view.surface_tree := by
    show (lock_tree (instr_ctor w)).view.surface_tree = _
    rw [lock_tree_view]
    rfl
  have hp_oc : (geometry_stage t true w).2.on_commit = none := by
    show (lock_tree (instr_ctor w)).on_commit = none
    rw [lock_tree_on_commit]
    rfl
  obtain ⟨w2, hc, htlB, hocB, hheldB, hhardB, hsoftB, hflagsB, htreeB⟩ :=
    geometry_commit_client_form (geometry_stage t true w).1 (geometry_stage t true w).2 tl
      hp_tl rfl
  have hoc2 : w2.on_commit = none := hocB.trans hp_oc
  have hdrive := drive_ready_none none w2 hoc2
  obtain ⟨w4, g4, happ, hb1, hb2, hb3⟩ :=
    geometry_apply_form (geometry_stage t true w).1 w2 tl htlB
  refine ⟨instr_dtor w4, ?_, instr_dtor_held_locks _, ?_, ?_⟩
  · simp only [geometry_path, hc, Option.some_bind, hdrive, happ, Option.map_some']
  · intro s
    rw [instr_dtor_hardCount, hb1, hb2, hhardB, hheldB, hp_hard, hp_held]
    show w.hardCount s - keyCount [] s = w.hardCount s
    simp [keyCount]
  · intro s
    rw [instr_dtor_softCount, hb3 s, hsoftB s, hflagsB s, hp_flags s, htreeB, hp_soft s, hp_tree]
    rw [occCount_nodup _ _ hnd]
    by_cases hm : s ∈ w.view.surface_tree
    · simp [hm]
    · simp [hm]

theorem state_cancel_path_locks (w : world_t) (tl : toplevel_t) (d : Nat)
    (hnd : w.view.surface_tree.Nodup)
    (htl : w.view.xdg_toplevel = some tl) :
    ∃ wf, state_cancel_path d w = some wf ∧ wf.held_locks = []
      ∧ (∀ s, wf.hardCount s = w.hardCount s)
      ∧ (∀ s, wf.softCount s = w.softCount s + (if s ∈ w.view.surface_tree then 1 else 0)) := by
  by_cases hno : tl.server_pending_tiled = d
  · obtain ⟨w2, hc, htlB, hocB, hheldB, hhardB, hsoftB, hflagsB, htreeB⟩ :=
      state_commit_emit d (state_set_pending d (instr_ctor w)) tl htl hno
    refine ⟨instr_dtor (on_kill_fire w2), ?_, instr_dtor_held_locks _, ?_, ?_⟩
    · simp only [state_cancel_path, hc, Option.map_some']
    · intro s
      rw [instr_dtor_hardCount]
      show w2.hardCount s - keyCount w2.held_locks s = w.hardCount s
      rw [hhardB, hheldB]
      show w.hardCount s - keyCount [] s = w.hardCount s
      simp [keyCount]
    · intro s
      rw [instr_dtor_softCount]
      show w2.softCount s = w.softCount s + _
      rw [hsoftB s]
      show w.softCount s + occCount w.view.surface_tree s = _
      rw [occCount_nodup _ _ hnd]
  · obtain ⟨w2, tl2, hc, htlB, hocB, hheldB, hhardB, hsoftB, hflagsB, htreeB⟩ :=
      state_commit_send d (state_set_pending d (instr_ctor w)) tl htl hno
    refine ⟨instr_dtor (on_kill_fire w2), ?_, instr_dtor_held_locks _, ?_, ?_⟩
    · simp only [state_cancel_path, hc, Option.map_some']
    · intro s
      rw [instr_dtor_hardCount]
      show w2.hardCount s - keyCount w2.held_locks s = w.hardCount s
      rw [hhardB, hheldB]
      show w.hardCount s - keyCount [] s = w.hardCount s
      simp [keyCount]
    · intro s
      rw [instr_dtor_softCount]
      show w2.softCount s = w.softCount s + _
      rw [hsoftB s]
      show w.softCount s + occCount w.view.surface_tree s = _
      rw [occCount_nodup _ _ hnd]

theorem geometry_cancel_path_locks (w : world_t) (tl : toplevel_t) (t : geometry_t)
    (hnd : w.view.surface_tree.Nodup)
    (htl : w.view.xdg_toplevel = some tl) :
    ∃ wf, geometry_cancel_path t false w = some wf ∧ wf.held_locks = []
      ∧ (∀ s, wf.hardCount s = w.hardCount s)
      ∧ (∀ s, wf.softCount s = w.softCount s + (if s ∈ w.view.surface_tree then 1 else 0)) := by
  obtain ⟨w2, tl2, hc, htlB, hocB, hheldB, hhardB, hsoftB, hflagsB, htreeB⟩ :=
    geometry_commit_send (geometry_stage t false w).1 (geometry_stage t false w).2 tl htl
      (fun h => Bool.noConfusion h)
  refine ⟨instr_dtor (on_kill_fire w2), ?_, instr_dtor_held_locks _, ?_, ?_⟩
  · simp only [geometry_cancel_path, hc, Option.map_some']
  · intro s
    rw [instr_dtor_hardCount]
    show w2.hardCount s - keyCount w2.held_locks s = w.hardCount s
    rw [hhardB, hheldB]
    show w.hardCount s - keyCount [] s = w.hardCount s
    simp [keyCount]
  · intro s
    rw [instr_dtor_softCount]
    show w2.softCount s = w.softCount s + _
    rw [hsoftB s]
    show w.softCount s + occCount w.view.surface_tree s = _
    rw [occCount_nodup _ _ hnd]

theorem geometry_cancel_client_path_locks (w : world_t) (tl : toplevel_t) (t : geometry_t)
    (hnd : w.view.surface_tree.Nodup)
    (htl : w.view.xdg_toplevel = some tl) :
    ∃ wf, geometry_cancel_path t true w = some wf ∧ wf.held_locks = []
      ∧ (∀ s, wf.hardCount s = w.hardCount s)
      ∧ (∀ s, wf.softCount s = w.softCount s + (if s ∈ w.view.surface_tree then 2 else 0)) := by
  have hp_tl : (geometry_stage t true w).2.view.xdg_toplevel = some tl := by
    show (lock_tree (instr_ctor w)).view.xdg_toplevel = some tl
    rw [lock_tree_view]
    exact htl
  have hp_soft : ∀ s, (geometry_stage t true w).2.softCount s
      = w.softCount s + occCount w.view.surface_tree s := by
    intro s
    show (lock_tree (instr_ctor w)).softCount s = _
    rw [lock_tree_softCount]
    rfl
  have hp_hard : (geometry_stage t true w).2.hardCount = w.hardCount := by
    show (lock_tree (instr_ctor w)).hardCount = _
    rw [lock_tree_hardCount]
    rfl
  have hp_held : (geometry_stage t true w).2.held_locks = [] := by
    show (lock_tree (instr_ctor w)).held_locks = _
    rw [lock_tree_held_locks]
    rfl
  have hp_tree : (geometry_stage t true w).2.view.surface_tree = w.view.surface_tree := by
    show (lock_tree (instr_ctor w)).view.surface_tree = _
    rw [lock_tree_view]
    rfl
  obtain ⟨w2, hc, htlB, hocB, hheldB, hhardB, hsoftB, hflagsB, htreeB⟩ :=
    geometry_commit_client_form (geometry_stage t true w).1 (geometry_stage t true w).2 tl
      hp_tl rfl
  refine ⟨instr_dtor (on_kill_fire w2), ?_, instr_dtor_held_locks _, ?_, ?_⟩
  · simp only [geometry_cancel_path, hc, Option.map_some']
  · intro s
    rw [instr_dtor_hardCount]
    show w2.hardCount s - keyCount w2.held_locks s = w.hardCount s
    rw [hhardB, hheldB, hp_hard, hp_held]
    show w.hardCount s - keyCount [] s = w.hardCount s
    simp [keyCount]
  · intro s
    rw [instr_dtor_softCount]
    show w2.softCount s = w.softCount s + _
    rw [hsoftB s, hp_soft s, hp_tree, occCount_nodup _ _ hnd]
    by_cases hm : s ∈ w.view.surface_tree
    · simp [hm]
    · simp [hm]

theorem gravity_cancel_path_locks (w : world_t) (tl : toplevel_t) (gv : gravity_t)
    (htl : w.view.xdg_toplevel = some tl) :
    ∃ wf, gravity_cancel_path gv w = some wf ∧ wf.held_locks = []
      ∧ (∀ s, wf.hardCount s = w.hardCount s)
      ∧ (∀ s, wf.softCount s = w.softCount s) := by
  obtain ⟨w2, hc, htlB, hocB, hheldB, hhardB, hsoftB, hflagsB⟩ :=
    gravity_commit_form (gravity_set_pending gv (instr_ctor w)) tl htl
  refine ⟨instr_dtor (on_kill_fire w2), ?_, instr_dtor_held_locks _, ?_, ?_⟩
  · simp only [gravity_cancel_path, hc, Option.map_some']
  · intro s
    rw [instr_dtor_hardCount]
    show w2.hardCount s - keyCount w2.held_locks s = w.hardCount s
    rw [hhardB, hheldB]
    show w.hardCount s - keyCount [] s = w.hardCount s
    simp [keyCount]
  · intro s
    rw [instr_dtor_softCount]
    show w2.softCount s = w.softCount s
    rw [hsoftB]
    rfl

theorem map_cancel_path_locks (w : world_t) (tl : toplevel_t)
    (hnd : w.view.surface_tree.Nodup)
    (htl : w.view.xdg_toplevel = some tl) :
    ∃ wf, map_cancel_path w = some wf ∧ wf.held_locks = []
      ∧ (∀ s, wf.hardCount s = w.hardCount s)
      ∧ (∀ s, wf.softCount s = w.softCount s + (if s ∈ w.view.surface_tree then 1 else 0)) := by
  obtain ⟨w2, he, htlB, hocB, hheldB, hhardB, hsoftB, hflagsB, htreeB⟩ :=
    emit_after_lock_form (map_set_pending (instr_ctor w)) tl htl
  have hc : map_commit (map_set_pending (instr_ctor w)) = some w2 := he
  refine ⟨instr_dtor (on_kill_fire w2), ?_, instr_dtor_held_locks _, ?_, ?_⟩
  · simp only [map_cancel_path, hc, Option.map_some']
  · intro s
    rw [instr_dtor_hardCount]
    show w2.hardCount s - keyCount w2.held_locks s = w.hardCount s
    rw [hhardB, hheldB]
    show w.hardCount s - keyCount [] s = w.hardCount s
    simp [keyCount]
  · intro s
    rw [instr_dtor_softCount]
    show w2.softCount s = w.softCount s + _
    rw [hsoftB s]
    show w.softCount s + occCount w.view.surface_tree s = _
    rw [occCount_nodup _ _ hnd]

theorem unmap_cancel_path_locks (w : world_t)
    (hnd : w.view.surface_tree.Nodup) :
    ((unmap_cancel_path w).held_locks = [])
  ∧ (∀ s, (unmap_cancel_path w).hardCount s = w.hardCount s)
  ∧ (∀ s, (unmap_cancel_path w).softCount s = w.softCount s) := by
  obtain ⟨hu1, hu2, hu3⟩ := unmap_set_pending_projs (instr_ctor w) hnd rfl
  refine ⟨instr_dtor_held_locks _, ?_, ?_⟩
  · intro s
    unfold unmap_cancel_path
    rw [instr_dtor_hardCount]
    show (unmap_set_pending (instr_ctor w)).hardCount s
      - keyCount (unmap_set_pending (instr_ctor w)).held_locks s = w.hardCount s
    rw [hu2 s, hu3 s]
    show w.hardCount s + occCount w.view.surface_tree s - occCount w.view.surface_tree s
      = w.hardCount s
    omega
  · intro s
    unfold unmap_cancel_path
    rw [instr_dtor_softCount]
    show (unmap_set_pending (instr_ctor w)).softCount s = w.softCount s
    rw [hu1]
    rfl

/-- C1 (amended): hard locks never outlive an instruction — on every complete
lifecycle of every variant, ready then finalize as well as cancel then
destruction (including, for unmap, the hook firing between stage and request
while the stage-time hard locks are still held), the hard-lock record is empty
and the external pending-lock counters are restored at destruction. Soft locks
are fully released only on the finalize paths of non-client-initiated
instructions; a client-initiated geometry instruction leaves one external
logical lock per surface even on the finalize path (locked twice, unlocked
once), and a cancelled instruction leaves every soft lock taken before
cancellation held: one per surface for the state, resize and map variants
(locked during request), two per surface for a client-initiated resize
(constructor and request), and none for gravity and unmap, which take no soft
locks. -/
theorem C1_lock_lifetime (w : world_t) (tl : toplevel_t)
    (hnd : w.view.surface_tree.Nodup)
    (htl : w.view.xdg_toplevel = some tl)
    (hser : 0 < tl.next_serial) :
    (∀ d, ∃ wf, state_path d w = some wf ∧ wf.held_locks = []
      ∧ (∀ s, wf.hardCount s = w.hardCount s)
      ∧ (∀ s, wf.softCount s = w.softCount s))
  ∧ (∀ t realized, ∃ wf, geometry_path t false realized w = some wf ∧ wf.held_locks = []
      ∧ (∀ s, wf.hardCount s = w.hardCount s)
      ∧ (∀ s, wf.softCount s = w.softCount s))
  ∧ (∀ gv, ∃ wf, gravity_path gv w = some wf ∧ wf.held_locks = []
      ∧ (∀ s, wf.hardCount s = w.hardCount s)
      ∧ (∀ s, wf.softCount s = w.softCount s))
  ∧ (∃ wf, map_path w = some wf ∧ wf.held_locks = []
      ∧ (∀ s, wf.hardCount s = w.hardCount s)
      ∧ (∀ s, wf.softCount s = w.softCount s))
  ∧ ((unmap_path w).held_locks = []
      ∧ (∀ s, (unmap_path w).hardCount s = w.hardCount s)
      ∧ (∀ s, (unmap_path w).softCount s = w.softCount s))
  ∧ (∀ t, ∃ wf, geometry_path t true none w = some wf ∧ wf.held_locks = []
      ∧ (∀ s, wf.hardCount s = w.hardCount s)
      ∧ (∀ s, wf.softCount s = w.softCount s + (if s ∈ w.view.surface_tree then 1 else 0)))
  ∧ (∀ d, ∃ wf, state_cancel_path d w = some wf ∧ wf.held_locks = []
      ∧ (∀ s, wf.hardCount s = w.hardCount s)
      ∧ (∀ s, wf.softCount s = w.softCount s + (if s ∈ w.view.surface_tree then 1 else 0)))
  ∧ (∀ t, ∃ wf, geometry_cancel_path t false w = some wf ∧ wf.held_locks = []
      ∧ (∀ s, wf.hardCount s = w.hardCount s)
      ∧ (∀ s, wf.softCount s = w.softCount s + (if s ∈ w.view.surface_tree then 1 else 0)))
  ∧ (∀ t, ∃ wf, geometry_cancel_path t true w = some wf ∧ wf.held_locks = []
      ∧ (∀ s, wf.hardCount s = w.hardCount s)
      ∧ (∀ s, wf.softCount s = w.softCount s + (if s ∈ w.view.surface_tree then 2 else 0)))
  ∧ (∀ gv, ∃ wf, gravity_cancel_path gv w = some wf ∧ wf.held_locks = []
      ∧ (∀ s, wf.hardCount s = w.hardCount s)
      ∧ (∀ s, wf.softCount s = w.softCount s))
  ∧ (∃ wf, map_cancel_path w = some wf ∧ wf.held_locks = []
      ∧ (∀ s, wf.hardCount s = w.hardCount s)
      ∧ (∀ s, wf.softCount s = w.softCount s + (if s ∈ w.view.surface_tree then 1 else 0)))
  ∧ ((unmap_cancel_path w).held_locks = []
      ∧ (∀ s, (unmap_cancel_path w).hardCount s = w.hardCount s)
      ∧ (∀ s, (unmap_cancel_path w).softCount s = w.softCount s)) :=
  ⟨fun d => state_path_locks w tl d hnd htl hser,
   fun t realized => geometry_path_locks w tl t realized hnd htl hser,
   fun gv => gravity_path_locks w tl gv htl,
   map_path_locks w tl hnd htl,
   unmap_path_locks w hnd,
   fun t => geometry_client_path_locks w tl t hnd htl,
   fun d => state_cancel_path_locks w tl d hnd htl,
   fun t => geometry_cancel_path_locks w tl t hnd htl,
   fun t => geometry_cancel_client_path_locks w tl t hnd htl,
   fun gv => gravity_cancel_path_locks w tl gv htl,
   map_cancel_path_locks w tl hnd htl,
   unmap_cancel_path_locks w hnd⟩

/-- Witness for C1: the hypotheses hold on the concrete world; the full tiling
lifecycle (send, acknowledge, finalize, destroy) restores every lock counter,
and the unmap instruction cancelled between stage and request has its
stage-time hard locks released by destruction. -/
theorem C1_lock_lifetime_witness :
    w0.view.surface_tree.Nodup
  ∧ w0.view.xdg_toplevel = some tl0
  ∧ 0 < tl0.next_serial
  ∧ (∃ wf, state_path 3 w0 = some wf ∧ wf.held_locks = []
      ∧ (∀ s, wf.hardCount s = w0.hardCount s)
      ∧ (∀ s, wf.softCount s = w0.softCount s))
  ∧ (∀ s, (unmap_cancel_path w0).hardCount s = w0.hardCount s) := by
  obtain ⟨h1, -, -, -, -, -, -, -, -, -, -, hu⟩ :=
    C1_lock_lifetime w0 tl0 (by decide) rfl (by decide)
  exact ⟨by decide, rfl, by decide, h1 3, hu.2.1⟩

/-- Counterexample for C1 as stated: the complete ready-then-finalize
lifecycle of a client-initiated resize instruction on the concrete world ends
with one soft lock still outstanding on surface 0 (external logical lock
count 1, initially 0), even though ready was emitted and the instruction was
destroyed. -/
theorem C1_counterexample :
    ∃ wf, geometry_path gTarget true none w0 = some wf
      ∧ countEv ev_t.ready wf.events = 1
      ∧ wf.held_locks = []
      ∧ wf.hardCount 0 = 0
      ∧ wf.softCount 0 = 1 := by
  refine ⟨_, rfl, rfl, rfl, rfl, rfl⟩
